import Mathlib

/-!
Shallow embedding of the KanbanFlow position-maintenance engine: the card and
list documents, the move methods of the two Mongoose models, and the Express
controller wrappers that call them.  Positions are modelled as integers,
document collections as Lean lists, and each Mongo updateMany as a map over
the collection.
-/

namespace Kanban

/-- A card document: listId and boardId are the parent references, position the
integer rank among the cards of the list, archived the archive flag. -/
structure Card where
  id : Nat
  listId : Nat
  boardId : Nat
  position : Int
  archived : Bool
deriving Repr, DecidableEq

/-- A list document: boardId is the parent board, position the rank among the
lists of the board, cardLimit the optional maximum card count. -/
structure ListDoc where
  id : Nat
  boardId : Nat
  position : Int
  archived : Bool
  cardLimit : Option Nat
deriving Repr, DecidableEq

abbrev Cards := List Card

/-- Card.countDocuments filtered by listId only: counts every card of the
list, archived cards included.  Used by createCard and by the null-position
branch of moveToList. -/
def countDocuments (s : Cards) (l : Nat) : Nat :=
  (s.filter (fun c => c.listId == l)).length

/-- Card.countDocuments filtered by listId and archived false: the count of
non-archived cards of a list, as used by isCardLimitExceeded and deleteList. -/
def siblingCount (s : Cards) (l : Nat) : Nat :=
  (s.filter (fun c => c.listId == l && !c.archived)).length

/-- Card.updateMany with an increment of the position field: every card
matching the predicate has delta added to its position. -/
def updateMany (s : Cards) (p : Card → Bool) (d : Int) : Cards :=
  s.map (fun c => if p c then { c with position := c.position + d } else c)

/-- Outcome of a card move: ok is false when the final save was rejected, and
cards is the card collection as the database holds it afterwards. -/
structure MoveOutcome where
  ok : Bool
  cards : Cards
deriving Repr, DecidableEq

/-- The final lines of moveToList: the document is assigned the new listId and
position and saved.  Schema validation rejects a negative position, in which
case the document keeps its old listId and position while the updateMany
shifts already issued remain applied. -/
def saveMove (s : Cards) (cid newListId : Nat) (newPosition : Int) : MoveOutcome :=
  if newPosition < 0 then ⟨false, s⟩
  else
    ⟨true, s.map (fun c =>
      if c.id == cid then { c with listId := newListId, position := newPosition } else c)⟩

/-- Transcription of cardSchema.methods.moveToList.  Same list with a null
position is an immediate no-op.  A cross-list move decrements the later cards
of the old list, resolves a null position to the full card count of the new
list, and increments the cards of the new list at or after that position.  A
same-list move shifts only the cards strictly between the old and the new
position, excluding the moved card itself.  None of the shift queries filters
on the archived flag. -/
def moveToList (s : Cards) (cid newListId : Nat) (newPos? : Option Int) : MoveOutcome :=
  match s.find? (fun c => c.id == cid) with
  | none => ⟨false, s⟩
  | some card =>
    if card.listId = newListId ∧ newPos? = none then ⟨true, s⟩
    else if card.listId ≠ newListId then
      let s1 := updateMany s
        (fun c => c.listId == card.listId && card.position < c.position) (-1)
      let newPosition := newPos?.getD ((countDocuments s1 newListId : Int))
      let s2 := updateMany s1
        (fun c => c.listId == newListId && newPosition ≤ c.position) 1
      saveMove s2 cid newListId newPosition
    else
      match newPos? with
      | none => ⟨true, s⟩
      | some newPosition =>
        if newPosition = card.position then ⟨true, s⟩
        else if card.position < newPosition then
          let s1 := updateMany s
            (fun c => c.listId == card.listId && card.position < c.position &&
              c.position ≤ newPosition && c.id != cid) (-1)
          saveMove s1 cid newListId newPosition
        else
          let s1 := updateMany s
            (fun c => c.listId == card.listId && newPosition ≤ c.position &&
              c.position < card.position && c.id != cid) 1
          saveMove s1 cid newListId newPosition

/-- Transcription of the createCard controller: the position of the new card
is Card.countDocuments filtered by listId only, archived cards included, and
the card is created non-archived. -/
def createCard (s : Cards) (newId listId boardId : Nat) : Cards :=
  s ++ [⟨newId, listId, boardId, (countDocuments s listId : Int), false⟩]

/-- Transcription of the deleteCard controller together with the deleteOne
post hook of the card schema: the card is removed, then the position of every
later non-archived card of the same list is decremented.  This is the one
shift query of the engine that does filter on the archived flag. -/
def deleteCard (s : Cards) (cid : Nat) : Cards :=
  match s.find? (fun c => c.id == cid) with
  | none => s
  | some card =>
    updateMany (s.filter (fun c => c.id != cid))
      (fun c => c.listId == card.listId && card.position < c.position && !c.archived) (-1)

/-- The Mongo database state the controllers see: the list collection and the
card collection.  Boards carry no position data, so boards are identified by
their ids alone. -/
structure DB where
  lists : List ListDoc
  cards : Cards
deriving Repr, DecidableEq

/-- Transcription of listSchema.methods.isCardLimitExceeded: false when no
cardLimit is configured, otherwise true when the count of non-archived cards
of the list has reached the limit. -/
def isCardLimitExceeded (db : DB) (l : ListDoc) : Bool :=
  match l.cardLimit with
  | none => false
  | some lim => lim ≤ siblingCount db.cards l.id

/-- Result of a moveCard request: the HTTP-visible outcome. -/
inductive MoveCardResult where
  | ok
  | validationFailed
  | notFound
  | crossBoard
  | cardLimitReached
deriving Repr, DecidableEq

/-- Transcription of the moveCard endpoint: the joi move schema requires a
numeric position of at least zero; the controller then checks that the card
exists and, only for a cross-list move, that the target list exists, belongs
to the same board, and has not reached its card limit, before calling
moveToList with the requested list and position. -/
def moveCard (db : DB) (cid listId : Nat) (position : Int) : MoveCardResult × DB :=
  if position < 0 then (.validationFailed, db)
  else
    match db.cards.find? (fun c => c.id == cid) with
    | none => (.notFound, db)
    | some card =>
      if card.listId ≠ listId then
        match db.lists.find? (fun l => l.id == listId) with
        | none => (.notFound, db)
        | some target =>
          if target.boardId ≠ card.boardId then (.crossBoard, db)
          else if isCardLimitExceeded db target then (.cardLimitReached, db)
          else
            let r := moveToList db.cards cid listId (some position)
            ((if r.ok then .ok else .validationFailed), { db with cards := r.cards })
      else
        let r := moveToList db.cards cid listId (some position)
        ((if r.ok then .ok else .validationFailed), { db with cards := r.cards })

/-- Transcription of the createCard endpoint on a database state: the list
collection is untouched and no card-limit check is performed. -/
def createCardDB (db : DB) (newId listId boardId : Nat) : DB :=
  { db with cards := createCard db.cards newId listId boardId }

/-- Transcription of the createList controller: the position of the new list
is List.countDocuments filtered by boardId only, archived lists included, and
the list is created non-archived with no card limit. -/
def createList (db : DB) (newId boardId : Nat) : DB :=
  let listCount := (db.lists.filter (fun l => l.boardId == boardId)).length
  { db with lists := db.lists ++ [⟨newId, boardId, (listCount : Int), false, none⟩] }

/-- List.updateMany with an increment of the position field. -/
def updateManyL (s : List ListDoc) (p : ListDoc → Bool) (d : Int) : List ListDoc :=
  s.map (fun l => if p l then { l with position := l.position + d } else l)

/-- Transcription of listSchema.methods.moveToPosition as invoked by the
reorderList endpoint: a negative position throws before any update is issued;
an equal position is a no-op; otherwise only the lists of the same board
strictly between the old and the new position shift by one, the moved list
excluded, with no archived filter and no upper bound check on the target. -/
def moveToPosition (s : List ListDoc) (lid : Nat) (newPosition : Int) : Bool × List ListDoc :=
  match s.find? (fun l => l.id == lid) with
  | none => (false, s)
  | some doc =>
    if newPosition < 0 then (false, s)
    else if doc.position = newPosition then (true, s)
    else if doc.position < newPosition then
      let s1 := updateManyL s
        (fun l => l.boardId == doc.boardId && doc.position < l.position &&
          l.position ≤ newPosition && l.id != lid) (-1)
      (true, s1.map (fun l => if l.id == lid then { l with position := newPosition } else l))
    else
      let s1 := updateManyL s
        (fun l => l.boardId == doc.boardId && newPosition ≤ l.position &&
          l.position < doc.position && l.id != lid) 1
      (true, s1.map (fun l => if l.id == lid then { l with position := newPosition } else l))

/-- Result of a deleteList request. -/
inductive DeleteListResult where
  | ok
  | notFound
  | hasCards
deriving Repr, DecidableEq

/-- Transcription of the deleteList controller: it rejects when the list still
holds non-archived cards; otherwise the deleteOne pre hook bulk-removes every
card of the list (archived included), the list is removed, and the deleteOne
post hook decrements the position of every later list of the board, with no
archived filter. -/
def deleteList (db : DB) (lid : Nat) : DeleteListResult × DB :=
  match db.lists.find? (fun l => l.id == lid) with
  | none => (.notFound, db)
  | some doc =>
    if 0 < siblingCount db.cards lid then (.hasCards, db)
    else
      let lists1 := updateManyL (db.lists.filter (fun l => l.id != lid))
        (fun l => l.boardId == doc.boardId && doc.position < l.position) (-1)
      (.ok, ⟨lists1, db.cards.filter (fun c => c.listId != lid)⟩)

/-- Transcription of the deleteBoard controller together with the deleteOne
pre hook of the board schema: every list and every card of the board is
bulk-removed, with no guard on remaining children and no compaction. -/
def deleteBoard (db : DB) (bid : Nat) : DB :=
  ⟨db.lists.filter (fun l => l.boardId != bid),
   db.cards.filter (fun c => c.boardId != bid)⟩

/-- The four operations of the ordered-collection engine on the card
collection, as the controllers dispatch them: insert is createCard, a
same-list move and a cross-list move both go through moveToList, and delete
is deleteCard with its compaction hook. -/
inductive Op where
  | insert (newId listId boardId : Nat)
  | moveWithin (cid : Nat) (t : Int)
  | moveAcross (cid newListId : Nat) (t : Option Int)
  | delete (cid : Nat)
deriving Repr, DecidableEq

/-- Applying one operation to the card collection. -/
def applyOp (s : Cards) : Op → Cards
  | .insert newId l b => createCard s newId l b
  | .moveWithin cid t =>
    (match s.find? (fun c => c.id == cid) with
     | none => s
     | some card => (moveToList s cid card.listId (some t)).cards)
  | .moveAcross cid l t => (moveToList s cid l t).cards
  | .delete cid => deleteCard s cid

/-- Applying a sequence of operations from left to right. -/
def applyOps (s : Cards) (ops : List Op) : Cards :=
  ops.foldl applyOp s

/-- The positions of the non-archived cards of list P, in collection order. -/
def positionsOf (s : Cards) (P : Nat) : List Int :=
  (s.filter (fun c => c.listId == P && !c.archived)).map (fun c => c.position)

/-- Invariant I1 for list P: the positions of its non-archived cards are a
permutation of the integers 0, 1, ..., n-1 where n is their number. -/
def Dense (s : Cards) (P : Nat) : Prop :=
  List.Perm (positionsOf s P)
    ((List.range (positionsOf s P).length).map (Nat.cast : Nat → Int))

/-- Well-formed collection: card ids are distinct, as Mongo object ids are. -/
abbrev NodupIds (s : Cards) : Prop :=
  (s.map (fun c => c.id)).Nodup

/-- Every card of list P is non-archived. -/
abbrev PNoArch (s : Cards) (P : Nat) : Prop :=
  ∀ c ∈ s, c.listId = P → c.archived = false

/-- Validity of one operation: a fresh id for insert, an in-range target for a
within-parent move, a target between 0 and the destination count (or null)
for a cross-parent move, and no archived card moved into P. -/
def Valid (P : Nat) (s : Cards) : Op → Prop
  | .insert newId _ _ => ∀ c ∈ s, c.id ≠ newId
  | .moveWithin cid t => ∀ card, s.find? (fun c => c.id == cid) = some card →
      0 ≤ t ∧ t < (countDocuments s card.listId : Int)
  | .moveAcross cid l topt => ∀ card, s.find? (fun c => c.id == cid) = some card →
      card.listId ≠ l ∧
      (∀ u, topt = some u → 0 ≤ u ∧ u ≤ (countDocuments s l : Int)) ∧
      (l = P → card.archived = false)
  | .delete _ => True

/-- Validity of a sequence of operations, each against the state it sees. -/
def ValidSeq (P : Nat) : Cards → List Op → Prop
  | _, [] => True
  | s, op :: ops => Valid P s op ∧ ValidSeq P (applyOp s op) ops

/-! Helper lemmas about the counting functions. -/

lemma countDocuments_eq_siblingCount_add (s : Cards) (l : Nat) :
    countDocuments s l =
      siblingCount s l + (s.filter (fun c => c.listId == l && c.archived)).length := by
  induction s with
  | nil => rfl
  | cons c s ih =>
    simp only [countDocuments, siblingCount, List.filter_cons] at *
    cases hc : (c.listId == l) <;> cases ha : c.archived <;>
      simp [hc, ha] <;> omega

lemma moveToList_none (s : Cards) (cid l : Nat) (topt : Option Int)
    (hfind : s.find? (fun c => c.id == cid) = none) :
    moveToList s cid l topt = ⟨false, s⟩ := by
  simp [moveToList, hfind]

lemma moveToList_same_none (s : Cards) (cid l : Nat) (card : Card)
    (hfind : s.find? (fun c => c.id == cid) = some card)
    (hl : card.listId = l) :
    moveToList s cid l none = ⟨true, s⟩ := by
  simp [moveToList, hfind, hl]

/-- C10: a moveToList call whose destination is the current list of the card
and whose position is null returns immediately: no error, no mutation. -/
theorem c10_same_list_null_is_noop (s : Cards) (cid l : Nat) (card : Card)
    (hfind : s.find? (fun c => c.id == cid) = some card)
    (hl : card.listId = l) :
    moveToList s cid l none = ⟨true, s⟩ :=
  moveToList_same_none s cid l card hfind hl

theorem c10_witness :
    moveToList [⟨10, 1, 1, 0, false⟩] 10 1 none = ⟨true, [⟨10, 1, 1, 0, false⟩]⟩ :=
  c10_same_list_null_is_noop _ 10 1 ⟨10, 1, 1, 0, false⟩ (by decide) rfl

/-- C4 fails on the code: with a single archived card at position 0 and no
non-archived card, the next insert receives position 1 although the count of
non-archived cards of the list is 0. -/
theorem c4_counterexample :
    createCard [⟨30, 3, 1, 0, true⟩] 31 3 1 =
      [⟨30, 3, 1, 0, true⟩, ⟨31, 3, 1, 1, false⟩] ∧
    siblingCount [⟨30, 3, 1, 0, true⟩] 3 = 0 ∧ (1 : Int) ≠ (0 : Int) :=
  ⟨by decide, by decide, by decide⟩

/-- C4 amended: insert appends a non-archived item whose position is the total
item count of the parent, archived items included, which equals the count of
non-archived items plus the count of archived items; the same holds for
creating a list in a board. -/
theorem c4_insert_position_is_total_count (s : Cards) (newId l b : Nat) (db : DB) (bid : Nat) :
    createCard s newId l b =
      s ++ [⟨newId, l, b, (countDocuments s l : Int), false⟩] ∧
    countDocuments s l =
      siblingCount s l + (s.filter (fun c => c.listId == l && c.archived)).length ∧
    (createList db newId bid).lists =
      db.lists ++
        [⟨newId, bid, ((db.lists.filter (fun x => x.boardId == bid)).length : Int), false, none⟩] :=
  ⟨rfl, countDocuments_eq_siblingCount_add s l, rfl⟩

/-- C5 fails on the code: moving the only card of a one-card list to position
5 is accepted and simply writes position 5, leaving the sequence non-dense,
instead of failing with an invalid-position error and no mutation. -/
theorem c5_counterexample :
    moveCard ⟨[⟨1, 1, 0, false, none⟩], [⟨10, 1, 1, 0, false⟩]⟩ 10 1 5 =
      (.ok, ⟨[⟨1, 1, 0, false, none⟩], [⟨10, 1, 1, 5, false⟩]⟩) := by
  decide

/-! Generic facts about maps that do not change card ids. -/

lemma find?_id_map (s : Cards) (F : Card → Card) (hid : ∀ c, (F c).id = c.id) (cid : Nat) :
    (s.map F).find? (fun c => c.id == cid) = (s.find? (fun c => c.id == cid)).map F := by
  rw [List.find?_map]
  have h : ((fun c : Card => c.id == cid) ∘ F) = fun c : Card => c.id == cid := by
    funext c
    simp [Function.comp, hid]
  rw [h]

lemma updateMany_id_preserved (p : Card → Bool) (d : Int) (c : Card) :
    ((fun x => if p x then { x with position := x.position + d } else x) c).id = c.id := by
  by_cases h : p c <;> simp [h]

/-- C5 amended: a negative target position is rejected with no mutation, by
the joi validation of the card move endpoint and by the explicit guard at the
top of moveToPosition; but a target at or past the sibling count is accepted:
moveToList reports success and writes the target position onto the moved
card, mutating the collection. -/
theorem c5_range_policy :
    (∀ (db : DB) (cid l : Nat) (t : Int), t < 0 →
      moveCard db cid l t = (.validationFailed, db)) ∧
    (∀ (ls : List ListDoc) (lid : Nat) (t : Int), t < 0 →
      moveToPosition ls lid t = (false, ls)) ∧
    (∀ (s : Cards) (cid l : Nat) (t : Int) (card : Card),
      s.find? (fun c => c.id == cid) = some card →
      card.listId = l → card.position < t → (countDocuments s l : Int) ≤ t →
      (moveToList s cid l (some t)).ok = true ∧
      (moveToList s cid l (some t)).cards.find? (fun c => c.id == cid) =
        some { card with listId := l, position := t } ∧
      (moveToList s cid l (some t)).cards ≠ s) := by
  refine ⟨?_, ?_, ?_⟩
  · intro db cid l t ht
    simp [moveCard, ht]
  · intro ls lid t ht
    cases hf : ls.find? (fun x => x.id == lid) with
    | none => simp [moveToPosition, hf]
    | some doc => simp [moveToPosition, hf, ht]
  · intro s cid l t card hfind hl hp hcount
    have hmem : card ∈ s := List.mem_of_find?_eq_some hfind
    have hbeq' := List.find?_some hfind
    have hbeq : (card.id == cid) = true := by simpa using hbeq'
    have hcid : card.id = cid := by simpa using hbeq
    have hmemf : card ∈ s.filter (fun c => c.listId == l) := by
      refine List.mem_filter.2 ⟨hmem, by simp [hl]⟩
    have hone : 0 < countDocuments s l := by
      exact List.length_pos_of_mem hmemf
    have ht0 : ¬ t < 0 := by
      rcases hone with _
      omega
    have hne : t ≠ card.position := by omega
    set F : Card → Card := fun c =>
      (fun x => if x.id == cid then { x with listId := l, position := t } else x)
        ((fun x => if x.listId == card.listId && card.position < x.position &&
            x.position ≤ t && x.id != cid
          then { x with position := x.position + (-1) } else x) c) with hF
    have hres : moveToList s cid l (some t) = ⟨true, s.map F⟩ := by
      simp only [moveToList, hfind]
      rw [if_neg (by simp), if_neg (by simp [hl]), if_neg hne, if_pos hp]
      simp only [updateMany, saveMove, if_neg ht0]
      rw [List.map_map]
      rfl
    have hidF : ∀ c, (F c).id = c.id := by
      intro c
      simp only [hF]
      by_cases h1 : (c.listId == card.listId && card.position < c.position &&
          c.position ≤ t && c.id != cid) <;>
        by_cases h2 : (c.id == cid) <;> simp [h1, h2]
    have hFcard : F card = { card with listId := l, position := t } := by
      have hsh : (card.listId == card.listId && decide (card.position < card.position) &&
          decide (card.position ≤ t) && card.id != cid) = false := by simp
      simp only [hF, hsh, hbeq]
      simp [hcid]
    refine ⟨by rw [hres], ?_, ?_⟩
    · rw [hres]
      show (s.map F).find? (fun c => c.id == cid) = _
      rw [find?_id_map s F hidF cid, hfind]
      simp [hFcard]
    · rw [hres]
      show ¬ (s.map F) = s
      intro heq
      have hsame : (s.map F).find? (fun c => c.id == cid) = some card := by
        rw [heq, hfind]
      rw [find?_id_map s F hidF cid, hfind] at hsame
      simp only [Option.map, hFcard] at hsame
      have h2 := Option.some.inj hsame
      have hpos : t = card.position := by
        have h3 := congrArg Card.position h2
        simpa using h3
      exact hne hpos

theorem c5_witness :
    moveCard (⟨[], []⟩ : DB) 1 1 (-1) = (.validationFailed, ⟨[], []⟩) ∧
    moveToPosition [] 1 (-1) = (false, []) ∧
    ((moveToList [⟨10, 1, 1, 0, false⟩] 10 1 (some 5)).ok = true ∧
      (moveToList [⟨10, 1, 1, 0, false⟩] 10 1 (some 5)).cards.find?
          (fun c => c.id == 10) = some ⟨10, 1, 1, 5, false⟩ ∧
      (moveToList [⟨10, 1, 1, 0, false⟩] 10 1 (some 5)).cards ≠
        [⟨10, 1, 1, 0, false⟩]) :=
  ⟨c5_range_policy.1 ⟨[], []⟩ 1 1 (-1) (by decide),
   c5_range_policy.2.1 [] 1 (-1) (by decide),
   c5_range_policy.2.2 [⟨10, 1, 1, 0, false⟩] 10 1 5 ⟨10, 1, 1, 0, false⟩
     (by decide) rfl (by decide) (by decide)⟩

/-- C6 fails on the code: a same-list move of card 12 to position 0 shifts the
archived card 41 from position 1 to position 2, so range shifts of move
operations do not exclude archived siblings. -/
theorem c6_counterexample :
    (moveToList [⟨10, 1, 1, 0, false⟩, ⟨41, 1, 1, 1, true⟩, ⟨12, 1, 1, 2, false⟩]
        12 1 (some 0)).cards =
      [⟨10, 1, 1, 1, false⟩, ⟨41, 1, 1, 2, true⟩, ⟨12, 1, 1, 0, false⟩] := by
  decide

/-- C6 amended: the delete compaction of cards is the only shift that excludes
archived siblings, which keep their record unchanged, and insert changes no
existing card either; but the shifts of move operations apply to archived
siblings as well, exhibited by the same concrete move as the counterexample. -/
theorem c6_archived_excluded_only_from_delete_shift :
    (∀ (s : Cards) (cid : Nat),
      (deleteCard s cid).filter (fun c => c.archived) =
        s.filter (fun c => c.archived && c.id != cid)) ∧
    (∀ (s : Cards) (newId l b : Nat),
      (createCard s newId l b).filter (fun c => c.archived) =
        s.filter (fun c => c.archived)) ∧
    ((moveToList [⟨10, 1, 1, 0, false⟩, ⟨41, 1, 1, 1, true⟩, ⟨12, 1, 1, 2, false⟩]
        12 1 (some 0)).cards.filter (fun c => c.archived) = [⟨41, 1, 1, 2, true⟩]) := by
  refine ⟨?_, ?_, by decide⟩
  · intro s cid
    cases hf : s.find? (fun c => c.id == cid) with
    | none =>
      have hall := List.find?_eq_none.1 hf
      simp only [deleteCard, hf]
      refine List.filter_congr ?_
      intro c hc
      have : ¬ (c.id == cid) = true := hall c hc
      simp at this
      simp [this]
    | some card =>
      have h1 : ((fun c : Card => c.archived) ∘ fun c : Card =>
          if c.listId == card.listId && decide (card.position < c.position) && !c.archived
          then { c with position := c.position + (-1) } else c) =
          fun c : Card => c.archived := by
        funext c
        by_cases h : (c.listId == card.listId && decide (card.position < c.position) &&
            !c.archived) <;> simp [Function.comp, h]
      have h2 : ∀ c ∈ s.filter (fun a => a.archived && a.id != cid),
          (if c.listId == card.listId && decide (card.position < c.position) && !c.archived
           then { c with position := c.position + (-1) } else c) = c := by
        intro c hc
        have hcc := (List.mem_filter.1 hc).2
        have ha : c.archived = true := by
          cases h : c.archived <;> simp [h] at hcc ⊢
        simp [ha]
      simp only [deleteCard, hf, updateMany]
      rw [List.filter_map, h1, List.filter_filter, List.map_congr_left h2]
      simp
  · intro s newId l b
    simp [createCard, List.filter_append]

/-- C7 fails on the code: createCard performs no capacity check, so inserting
into a list whose card limit of 1 is already reached succeeds and leaves the
list with 2 non-archived cards. -/
theorem c7_counterexample :
    createCardDB ⟨[⟨1, 1, 0, false, some 1⟩], [⟨10, 1, 1, 0, false⟩]⟩ 31 1 1 =
      ⟨[⟨1, 1, 0, false, some 1⟩], [⟨10, 1, 1, 0, false⟩, ⟨31, 1, 1, 1, false⟩]⟩ ∧
    isCardLimitExceeded ⟨[⟨1, 1, 0, false, some 1⟩], [⟨10, 1, 1, 0, false⟩]⟩
        ⟨1, 1, 0, false, some 1⟩ = true ∧
    siblingCount [⟨10, 1, 1, 0, false⟩, ⟨31, 1, 1, 1, false⟩] 1 = 2 :=
  ⟨by decide, by decide, by decide⟩

/-- C7 amended: the card limit of a destination list is enforced only by the
cross-list branch of the moveCard endpoint, which rejects with no mutation
when the non-archived count of the destination has reached the limit, which
is exactly when the post-move count would exceed it; insert performs no
capacity check and always appends. -/
theorem c7_capacity_checked_only_on_cross_move :
    (∀ (db : DB) (cid l : Nat) (t : Int) (card : Card) (target : ListDoc),
      0 ≤ t →
      db.cards.find? (fun c => c.id == cid) = some card →
      card.listId ≠ l →
      db.lists.find? (fun x => x.id == l) = some target →
      target.boardId = card.boardId →
      isCardLimitExceeded db target = true →
      moveCard db cid l t = (.cardLimitReached, db)) ∧
    (∀ (db : DB) (target : ListDoc) (lim : Nat),
      target.cardLimit = some lim →
      (isCardLimitExceeded db target = true ↔
        lim < siblingCount db.cards target.id + 1)) ∧
    (∀ (db : DB) (newId l b : Nat),
      (createCardDB db newId l b).cards =
        db.cards ++ [⟨newId, l, b, (countDocuments db.cards l : Int), false⟩] ∧
      (createCardDB db newId l b).lists = db.lists) := by
  refine ⟨?_, ?_, ?_⟩
  · intro db cid l t card target ht hcard hne htarget hboard hlim
    have ht0 : ¬ t < 0 := by omega
    simp only [moveCard, if_neg ht0, hcard, if_pos hne, htarget]
    rw [if_neg (show ¬ target.boardId ≠ card.boardId from fun h => h hboard), if_pos hlim]
  · intro db target lim hlim
    simp only [isCardLimitExceeded, hlim]
    constructor
    · intro h
      have := of_decide_eq_true h
      omega
    · intro h
      exact decide_eq_true (by omega)
  · intro db newId l b
    exact ⟨rfl, rfl⟩

theorem c7_witness :
    moveCard ⟨[⟨2, 1, 0, false, some 1⟩], [⟨10, 1, 1, 0, false⟩, ⟨20, 2, 1, 0, false⟩]⟩
        10 2 0 =
      (.cardLimitReached,
        ⟨[⟨2, 1, 0, false, some 1⟩], [⟨10, 1, 1, 0, false⟩, ⟨20, 2, 1, 0, false⟩]⟩) ∧
    (isCardLimitExceeded ⟨[⟨2, 1, 0, false, some 1⟩], []⟩ ⟨2, 1, 0, false, some 1⟩ = true ↔
      1 < siblingCount ([] : Cards) 2 + 1) :=
  ⟨c7_capacity_checked_only_on_cross_move.1
      ⟨[⟨2, 1, 0, false, some 1⟩], [⟨10, 1, 1, 0, false⟩, ⟨20, 2, 1, 0, false⟩]⟩
      10 2 0 ⟨10, 1, 1, 0, false⟩ ⟨2, 1, 0, false, some 1⟩
      (by decide) (by decide) (by decide) (by decide) rfl (by decide),
   c7_capacity_checked_only_on_cross_move.2.1 ⟨[⟨2, 1, 0, false, some 1⟩], []⟩
      ⟨2, 1, 0, false, some 1⟩ 1 rfl⟩

/-- C9 fails on the code: deleting a list that still holds a non-archived card
is rejected with an error and no mutation, instead of cascading. -/
theorem c9_counterexample :
    deleteList ⟨[⟨1, 1, 0, false, none⟩], [⟨10, 1, 1, 0, false⟩]⟩ 1 =
      (.hasCards, ⟨[⟨1, 1, 0, false, none⟩], [⟨10, 1, 1, 0, false⟩]⟩) := by
  decide

/-- C9 amended: deleting a board bulk-removes exactly its lists and cards with
no guard on remaining children; deleting a list succeeds and bulk-removes its
cards only when the list has no non-archived card, and is rejected with no
mutation otherwise. -/
theorem c9_cascade_only_for_boards :
    (∀ (db : DB) (bid : Nat) (ld : ListDoc),
      ld ∈ (deleteBoard db bid).lists ↔ ld ∈ db.lists ∧ ld.boardId ≠ bid) ∧
    (∀ (db : DB) (bid : Nat) (c : Card),
      c ∈ (deleteBoard db bid).cards ↔ c ∈ db.cards ∧ c.boardId ≠ bid) ∧
    (∀ (db : DB) (lid : Nat) (doc : ListDoc),
      db.lists.find? (fun x => x.id == lid) = some doc →
      siblingCount db.cards lid = 0 →
      (deleteList db lid).1 = .ok ∧
      (deleteList db lid).2.cards = db.cards.filter (fun c => c.listId != lid)) ∧
    (∀ (db : DB) (lid : Nat),
      0 < siblingCount db.cards lid →
      (deleteList db lid).2 = db ∧ (deleteList db lid).1 ≠ .ok) := by
  refine ⟨?_, ?_, ?_, ?_⟩
  · intro db bid ld
    simp [deleteBoard, List.mem_filter]
  · intro db bid c
    simp [deleteBoard, List.mem_filter]
  · intro db lid doc hfind hzero
    have hz : ¬ 0 < siblingCount db.cards lid := by omega
    refine ⟨?_, ?_⟩ <;> simp [deleteList, hfind, hz]
  · intro db lid hpos
    cases hf : db.lists.find? (fun x => x.id == lid) with
    | none => simp [deleteList, hf]
    | some doc => simp [deleteList, hf, hpos]

theorem c9_witness :
    ((⟨20, 7, 0, true, none⟩ : ListDoc) ∈
        (deleteBoard ⟨[⟨20, 7, 0, true, none⟩, ⟨21, 5, 0, false, none⟩], []⟩ 5).lists ↔
      (⟨20, 7, 0, true, none⟩ : ListDoc) ∈
        ([⟨20, 7, 0, true, none⟩, ⟨21, 5, 0, false, none⟩] : List ListDoc) ∧ (7 : Nat) ≠ 5) ∧
    (deleteList ⟨[⟨1, 1, 0, false, none⟩], [⟨10, 1, 1, 5, true⟩]⟩ 1).1 = .ok ∧
    (deleteList ⟨[⟨1, 1, 0, false, none⟩], [⟨10, 1, 1, 5, true⟩]⟩ 1).2.cards =
      ([⟨10, 1, 1, 5, true⟩] : Cards).filter (fun c => c.listId != 1) ∧
    (deleteList ⟨[⟨1, 1, 0, false, none⟩], [⟨10, 1, 1, 0, false⟩]⟩ 1).2 =
      ⟨[⟨1, 1, 0, false, none⟩], [⟨10, 1, 1, 0, false⟩]⟩ :=
  ⟨c9_cascade_only_for_boards.1 ⟨[⟨20, 7, 0, true, none⟩, ⟨21, 5, 0, false, none⟩], []⟩ 5
      ⟨20, 7, 0, true, none⟩,
   (c9_cascade_only_for_boards.2.2.1 ⟨[⟨1, 1, 0, false, none⟩], [⟨10, 1, 1, 5, true⟩]⟩ 1
      ⟨1, 1, 0, false, none⟩ (by decide) (by decide)).1,
   (c9_cascade_only_for_boards.2.2.1 ⟨[⟨1, 1, 0, false, none⟩], [⟨10, 1, 1, 5, true⟩]⟩ 1
      ⟨1, 1, 0, false, none⟩ (by decide) (by decide)).2,
   (c9_cascade_only_for_boards.2.2.2 ⟨[⟨1, 1, 0, false, none⟩], [⟨10, 1, 1, 0, false⟩]⟩ 1
      (by decide)).1⟩

/-! Branch-selection lemmas describing moveToList in terms of the issued
updateMany shifts followed by the final save. -/

lemma eq_of_mem_of_id (s : Cards) (cid : Nat) (card c : Card)
    (hids : NodupIds s) (hfind : s.find? (fun x => x.id == cid) = some card)
    (hc : c ∈ s) (hid : c.id = cid) : c = card := by
  have hmem : card ∈ s := List.mem_of_find?_eq_some hfind
  have hbeq := List.find?_some hfind
  have hcard : card.id = cid := by simpa using hbeq
  exact List.inj_on_of_nodup_map hids hc hmem (by rw [hid, hcard])

lemma saveMove_nonneg (s : Cards) (cid l : Nat) (t : Int) (ht : 0 ≤ t) :
    saveMove s cid l t =
      ⟨true, s.map (fun c =>
        if c.id == cid then { c with listId := l, position := t } else c)⟩ := by
  simp only [saveMove, if_neg (by omega : ¬ t < 0)]

lemma saveMove_neg (s : Cards) (cid l : Nat) (t : Int) (ht : t < 0) :
    saveMove s cid l t = ⟨false, s⟩ := by
  simp only [saveMove, if_pos ht]

lemma moveToList_same_later_raw (s : Cards) (cid l : Nat) (t : Int) (card : Card)
    (hfind : s.find? (fun x => x.id == cid) = some card)
    (hl : card.listId = l) (hp : card.position < t) :
    moveToList s cid l (some t) =
      saveMove (updateMany s
        (fun c => c.listId == card.listId && decide (card.position < c.position) &&
          decide (c.position ≤ t) && c.id != cid) (-1)) cid l t := by
  simp only [moveToList, hfind]
  rw [if_neg (by simp), if_neg (by simp [hl]),
    if_neg (show ¬ t = card.position by omega), if_pos hp]

lemma moveToList_same_earlier_raw (s : Cards) (cid l : Nat) (t : Int) (card : Card)
    (hfind : s.find? (fun x => x.id == cid) = some card)
    (hl : card.listId = l) (hp : t < card.position) :
    moveToList s cid l (some t) =
      saveMove (updateMany s
        (fun c => c.listId == card.listId && decide (t ≤ c.position) &&
          decide (c.position < card.position) && c.id != cid) 1) cid l t := by
  simp only [moveToList, hfind]
  rw [if_neg (by simp), if_neg (by simp [hl]),
    if_neg (show ¬ t = card.position by omega),
    if_neg (show ¬ card.position < t by omega)]

lemma moveToList_same_self (s : Cards) (cid l : Nat) (t : Int) (card : Card)
    (hfind : s.find? (fun x => x.id == cid) = some card)
    (hl : card.listId = l) (hp : t = card.position) :
    moveToList s cid l (some t) = ⟨true, s⟩ := by
  simp only [moveToList, hfind]
  rw [if_neg (by simp), if_neg (by simp [hl]), if_pos hp]

/-- Full description of a same-list move with a non-negative target: the save
succeeds and every card of the collection is transformed by the piecewise
shift map of the specification. -/
lemma moveToList_same_map (s : Cards) (cid l : Nat) (t : Int) (card : Card)
    (hids : NodupIds s)
    (hfind : s.find? (fun c => c.id == cid) = some card)
    (hl : card.listId = l)
    (ht0 : 0 ≤ t) :
    (moveToList s cid l (some t)).ok = true ∧
    (moveToList s cid l (some t)).cards = s.map (fun c =>
      if c.id = cid then { c with listId := l, position := t }
      else if c.listId = l ∧ card.position < c.position ∧ c.position ≤ t then
        { c with position := c.position - 1 }
      else if c.listId = l ∧ t ≤ c.position ∧ c.position < card.position then
        { c with position := c.position + 1 }
      else c) := by
  rcases lt_trichotomy card.position t with hp | hp | hp
  · rw [moveToList_same_later_raw s cid l t card hfind hl hp, saveMove_nonneg _ _ _ _ ht0]
    refine ⟨rfl, ?_⟩
    show (updateMany s _ _).map _ = _
    simp only [updateMany]
    rw [List.map_map]
    refine List.map_congr_left ?_
    intro c hc
    by_cases hcid : c.id = cid
    · have h1 : (c.id != cid) = false := by simp [hcid]
      have h2 : (c.id == cid) = true := by simp [hcid]
      have hbool : (c.listId == card.listId && decide (card.position < c.position) &&
          decide (c.position ≤ t) && (c.id != cid)) = false := by simp [h1]
      simp [Function.comp, hbool, h2, hcid]
    · have h1 : (c.id != cid) = true := by simp [hcid]
      have h2 : (c.id == cid) = false := by simp [hcid]
      have hthird : ¬(c.listId = l ∧ t ≤ c.position ∧ c.position < card.position) := by
        rintro ⟨h3, h4, h5⟩
        omega
      rw [if_neg hcid, if_neg hthird]
      by_cases hcases : c.listId = l ∧ card.position < c.position ∧ c.position ≤ t
      · have hbool : (c.listId == card.listId && decide (card.position < c.position) &&
            decide (c.position ≤ t) && (c.id != cid)) = true := by
          simp [hl, h1, hcases.1, hcases.2.1, hcases.2.2]
        rw [if_pos hcases]
        simp [Function.comp, hbool, h2, Int.sub_eq_add_neg]
      · have hnp : ¬((c.listId = card.listId ∧ card.position < c.position) ∧
            c.position ≤ t) := by
          rintro ⟨⟨ha, hb⟩, hcc⟩
          exact hcases ⟨ha.trans hl, hb, hcc⟩
        rw [if_neg hcases]
        simp [Function.comp, hnp, hcid]
  · rw [moveToList_same_self s cid l t card hfind hl hp.symm]
    refine ⟨rfl, ?_⟩
    show s = _
    refine Eq.symm ?_
    refine (List.map_congr_left ?_).trans (List.map_id s)
    intro c hc
    by_cases hcid : c.id = cid
    · have hcc : c = card := eq_of_mem_of_id s cid card c hids hfind hc hcid
      rw [if_pos hcid, hcc, ← hl, ← hp]
      rfl
    · have hsecond : ¬(c.listId = l ∧ card.position < c.position ∧ c.position ≤ t) := by
        rintro ⟨h3, h4, h5⟩
        omega
      have hthird : ¬(c.listId = l ∧ t ≤ c.position ∧ c.position < card.position) := by
        rintro ⟨h3, h4, h5⟩
        omega
      rw [if_neg hcid, if_neg hsecond, if_neg hthird]
      rfl
  · rw [moveToList_same_earlier_raw s cid l t card hfind hl hp, saveMove_nonneg _ _ _ _ ht0]
    refine ⟨rfl, ?_⟩
    show (updateMany s _ _).map _ = _
    simp only [updateMany]
    rw [List.map_map]
    refine List.map_congr_left ?_
    intro c hc
    by_cases hcid : c.id = cid
    · have h1 : (c.id != cid) = false := by simp [hcid]
      have h2 : (c.id == cid) = true := by simp [hcid]
      have hbool : (c.listId == card.listId && decide (t ≤ c.position) &&
          decide (c.position < card.position) && (c.id != cid)) = false := by simp [h1]
      simp [Function.comp, hbool, h2, hcid]
    · have h1 : (c.id != cid) = true := by simp [hcid]
      have h2 : (c.id == cid) = false := by simp [hcid]
      have hsecond : ¬(c.listId = l ∧ card.position < c.position ∧ c.position ≤ t) := by
        rintro ⟨h3, h4, h5⟩
        omega
      rw [if_neg hcid, if_neg hsecond]
      by_cases hcases : c.listId = l ∧ t ≤ c.position ∧ c.position < card.position
      · have hbool : (c.listId == card.listId && decide (t ≤ c.position) &&
            decide (c.position < card.position) && (c.id != cid)) = true := by
          simp [hl, h1, hcases.1, hcases.2.1, hcases.2.2]
        rw [if_pos hcases]
        simp [Function.comp, hbool, h2]
      · have hnp : ¬((c.listId = card.listId ∧ t ≤ c.position) ∧
            c.position < card.position) := by
          rintro ⟨⟨ha, hb⟩, hcc⟩
          exact hcases ⟨ha.trans hl, hb, hcc⟩
        rw [if_neg hcases]
        simp [Function.comp, hnp, hcid]

/-- C2: a same-list move with an in-range target over a dense list shifts
exactly the cards strictly between the old and the new position by one slot,
writes the target position onto the moved card, and leaves every other card
unchanged. -/
theorem c2_move_within_shifts_between (s : Cards) (cid l : Nat) (t : Int) (card : Card)
    (hids : NodupIds s)
    (hfind : s.find? (fun c => c.id == cid) = some card)
    (hl : card.listId = l)
    (hdense : List.Perm ((s.filter (fun c => c.listId == l)).map (fun c => c.position))
      ((List.range (countDocuments s l)).map (Nat.cast : Nat → Int)))
    (ht0 : 0 ≤ t) (htn : t < (countDocuments s l : Int)) :
    (moveToList s cid l (some t)).ok = true ∧
    (moveToList s cid l (some t)).cards = s.map (fun c =>
      if c.id = cid then { c with listId := l, position := t }
      else if c.listId = l ∧ card.position < c.position ∧ c.position ≤ t then
        { c with position := c.position - 1 }
      else if c.listId = l ∧ t ≤ c.position ∧ c.position < card.position then
        { c with position := c.position + 1 }
      else c) :=
  moveToList_same_map s cid l t card hids hfind hl ht0

/-- Witness: the concrete scenario of the claim, with parent list 1 holding
a0, a1, a2, a3 at positions 0, 1, 2, 3 and a0 moved to position 2. -/
theorem c2_witness :
    (moveToList [⟨10, 1, 1, 0, false⟩, ⟨11, 1, 1, 1, false⟩, ⟨12, 1, 1, 2, false⟩,
        ⟨13, 1, 1, 3, false⟩] 10 1 (some 2)).ok = true ∧
    (moveToList [⟨10, 1, 1, 0, false⟩, ⟨11, 1, 1, 1, false⟩, ⟨12, 1, 1, 2, false⟩,
        ⟨13, 1, 1, 3, false⟩] 10 1 (some 2)).cards =
      [⟨10, 1, 1, 2, false⟩, ⟨11, 1, 1, 0, false⟩, ⟨12, 1, 1, 1, false⟩,
        ⟨13, 1, 1, 3, false⟩] := by
  have h := c2_move_within_shifts_between
    [⟨10, 1, 1, 0, false⟩, ⟨11, 1, 1, 1, false⟩, ⟨12, 1, 1, 2, false⟩, ⟨13, 1, 1, 3, false⟩]
    10 1 2 ⟨10, 1, 1, 0, false⟩ (by decide) (by decide) rfl (by decide) (by decide) (by decide)
  refine ⟨h.1, ?_⟩
  rw [h.2]
  decide

lemma countDocuments_updateMany (s : Cards) (p : Card → Bool) (d : Int) (l : Nat) :
    countDocuments (updateMany s p d) l = countDocuments s l := by
  simp only [countDocuments, updateMany]
  rw [List.filter_map]
  have h : ((fun c : Card => c.listId == l) ∘ fun c =>
      if p c then { c with position := c.position + d } else c) =
      fun c : Card => c.listId == l := by
    funext c
    by_cases hc : p c <;> simp [Function.comp, hc]
  rw [h, List.length_map]

lemma moveToList_cross_raw (s : Cards) (cid l : Nat) (topt : Option Int) (card : Card)
    (hfind : s.find? (fun c => c.id == cid) = some card)
    (hne : card.listId ≠ l) :
    moveToList s cid l topt =
      saveMove (updateMany (updateMany s
          (fun c => c.listId == card.listId && decide (card.position < c.position)) (-1))
        (fun c => c.listId == l &&
          decide (topt.getD ((countDocuments s l : Int)) ≤ c.position)) 1)
        cid l (topt.getD ((countDocuments s l : Int))) := by
  simp only [moveToList, hfind]
  rw [if_neg (show ¬ (card.listId = l ∧ topt = none) from fun h => hne h.1), if_pos hne,
    countDocuments_updateMany]

/-- Full description of a cross-list move with a non-negative resolved target:
the save succeeds, the later cards of the source list are decremented, the
cards of the destination at or after the resolved target are incremented, and
the moved card is written to the destination at the resolved target. -/
lemma moveToList_cross_map (s : Cards) (cid l : Nat) (topt : Option Int) (card : Card)
    (tstar : Int)
    (hfind : s.find? (fun c => c.id == cid) = some card)
    (hne : card.listId ≠ l)
    (htstar : tstar = topt.getD ((countDocuments s l : Int)))
    (ht0 : 0 ≤ tstar) :
    (moveToList s cid l topt).ok = true ∧
    (moveToList s cid l topt).cards = s.map (fun c =>
      if c.id = cid then { c with listId := l, position := tstar }
      else if c.listId = card.listId ∧ card.position < c.position then
        { c with position := c.position - 1 }
      else if c.listId = l ∧ tstar ≤ c.position then
        { c with position := c.position + 1 }
      else c) := by
  rw [moveToList_cross_raw s cid l topt card hfind hne, ← htstar,
    saveMove_nonneg _ _ _ _ ht0]
  refine ⟨rfl, ?_⟩
  show ((updateMany (updateMany s _ _) _ _).map _) = _
  simp only [updateMany]
  rw [List.map_map, List.map_map]
  refine List.map_congr_left ?_
  intro c hc
  by_cases hcid : c.id = cid
  · have h2 : (c.id == cid) = true := by simp [hcid]
    cases hA : (c.listId == card.listId && decide (card.position < c.position))
    all_goals simp [Function.comp, hA, h2, hcid]
    all_goals try (split <;> simp [hcid])
  · have h2 : (c.id == cid) = false := by simp [hcid]
    rw [if_neg hcid]
    by_cases hA : c.listId = card.listId ∧ card.position < c.position
    · have hnl : ∀ z : Prop, ¬ (card.listId = l ∧ z) := fun z h => hne h.1
      rw [if_pos hA]
      simp [Function.comp, hA.1, hA.2, hnl _, hcid, Int.sub_eq_add_neg]
    · rw [if_neg hA]
      by_cases hB : c.listId = l ∧ tstar ≤ c.position
      · have hA2 : ∀ z : Prop, ¬ (l = card.listId ∧ z) := fun z h => hne h.1.symm
        rw [if_pos hB]
        simp [Function.comp, hA2 _, hB.1, hB.2, hcid]
      · rw [if_neg hB]
        simp [Function.comp, hA, hB, hcid]

lemma moveToList_ok_nonneg (s : Cards) (cid l : Nat) (t : Int) (card : Card)
    (hfind : s.find? (fun c => c.id == cid) = some card) (ht0 : 0 ≤ t) :
    (moveToList s cid l (some t)).ok = true := by
  by_cases hl : card.listId = l
  · rcases lt_trichotomy card.position t with hp | hp | hp
    · rw [moveToList_same_later_raw s cid l t card hfind hl hp, saveMove_nonneg _ _ _ _ ht0]
    · rw [moveToList_same_self s cid l t card hfind hl hp.symm]
    · rw [moveToList_same_earlier_raw s cid l t card hfind hl hp, saveMove_nonneg _ _ _ _ ht0]
  · rw [moveToList_cross_raw s cid l (some t) card hfind hl]
    simp only [Option.getD_some]
    rw [saveMove_nonneg _ _ _ _ ht0]

/-- C8 fails on the code: a same-list move of card 11 to position -1 issues the
sibling shift first and only then fails schema validation on the final save,
leaving card 10 shifted from position 0 to 1 while card 11 keeps position 1 —
a partial mutation observable after a failed operation. -/
theorem c8_counterexample :
    moveToList [⟨10, 1, 1, 0, false⟩, ⟨11, 1, 1, 1, false⟩] 11 1 (some (-1)) =
      ⟨false, [⟨10, 1, 1, 1, false⟩, ⟨11, 1, 1, 1, false⟩]⟩ ∧
    ([⟨10, 1, 1, 1, false⟩, ⟨11, 1, 1, 1, false⟩] : Cards) ≠
      [⟨10, 1, 1, 0, false⟩, ⟨11, 1, 1, 1, false⟩] :=
  ⟨by decide, by decide⟩

/-- C8 amended: rejections issued before any write leave the database
unchanged — every non-ok outcome of the moveCard endpoint mutates nothing,
because its joi validation bars the negative positions that could fail the
final save; but the model method itself is not all-or-nothing: a same-list
moveToList with a negative target applies the sibling shift and then fails
the save, leaving the shift behind. -/
theorem c8_rollback_only_before_writes :
    (∀ (db : DB) (cid l : Nat) (t : Int),
      (moveCard db cid l t).1 ≠ .ok → (moveCard db cid l t).2 = db) ∧
    (∀ (s : Cards) (cid l : Nat) (t : Int) (card : Card),
      s.find? (fun c => c.id == cid) = some card →
      card.listId = l → t < 0 → t < card.position →
      moveToList s cid l (some t) =
        ⟨false, updateMany s (fun c => c.listId == card.listId && decide (t ≤ c.position) &&
          decide (c.position < card.position) && c.id != cid) 1⟩) := by
  constructor
  · intro db cid l t h
    by_cases ht : t < 0
    · simp [moveCard, ht]
    · cases hf : db.cards.find? (fun c => c.id == cid) with
      | none => simp [moveCard, ht, hf]
      | some card =>
        by_cases hl : card.listId ≠ l
        · cases hg : db.lists.find? (fun x => x.id == l) with
          | none => simp [moveCard, ht, hf, hl, hg]
          | some target =>
            by_cases hb : target.boardId ≠ card.boardId
            · simp [moveCard, ht, hf, hl, hg, hb]
            · by_cases hcap : isCardLimitExceeded db target = true
              · simp [moveCard, ht, hf, hl, hg, hb, hcap]
              · have hok := moveToList_ok_nonneg db.cards cid l t card hf (by omega)
                exfalso
                apply h
                simp [moveCard, ht, hf, hl, hg, hb, hcap, hok]
        · have hok := moveToList_ok_nonneg db.cards cid l t card hf (by omega)
          exfalso
          apply h
          simp [moveCard, ht, hf, hl, hok]
  · intro s cid l t card hfind hl ht hp
    rw [moveToList_same_earlier_raw s cid l t card hfind hl hp, saveMove_neg _ _ _ _ ht]

theorem c8_witness :
    (moveCard (⟨[], []⟩ : DB) 5 1 3).2 = (⟨[], []⟩ : DB) ∧
    moveToList [⟨10, 1, 1, 0, false⟩, ⟨11, 1, 1, 1, false⟩] 11 1 (some (-1)) =
      ⟨false, updateMany [⟨10, 1, 1, 0, false⟩, ⟨11, 1, 1, 1, false⟩]
        (fun c => c.listId == 1 && decide ((-1 : Int) ≤ c.position) &&
          decide (c.position < (⟨11, 1, 1, 1, false⟩ : Card).position) && c.id != 11) 1⟩ :=
  ⟨c8_rollback_only_before_writes.1 ⟨[], []⟩ 5 1 3 (by decide),
   c8_rollback_only_before_writes.2 [⟨10, 1, 1, 0, false⟩, ⟨11, 1, 1, 1, false⟩]
     11 1 (-1) ⟨11, 1, 1, 1, false⟩ (by decide) rfl (by decide) (by decide)⟩

/-! Machinery for the density invariant: a list of integers that is nodup and
bounded by its length is a permutation of the range. -/

lemma perm_range_of_nodup_bounds (xs : List Int)
    (hnd : xs.Nodup) (hb : ∀ x ∈ xs, 0 ≤ x ∧ x < (xs.length : Int)) :
    List.Perm xs ((List.range xs.length).map (Nat.cast : Nat → Int)) := by
  have hlen : ((List.range xs.length).map (Nat.cast : Nat → Int)).length = xs.length := by
    simp
  have hsub : xs ⊆ (List.range xs.length).map (Nat.cast : Nat → Int) := by
    intro x hx
    rcases hb x hx with ⟨h0, h1⟩
    refine List.mem_map.2 ⟨x.toNat, List.mem_range.2 (by omega), Int.toNat_of_nonneg h0⟩
  exact (hnd.subperm hsub).perm_of_length_le (by omega)

lemma nodup_of_perm_range (xs : List Int) (n : Nat)
    (h : List.Perm xs ((List.range n).map (Nat.cast : Nat → Int))) : xs.Nodup := by
  refine h.nodup_iff.2 ?_
  refine List.Nodup.map ?_ (List.nodup_range n)
  intro a b hab
  exact_mod_cast hab

lemma bounds_of_perm_range (xs : List Int) (n : Nat)
    (h : List.Perm xs ((List.range n).map (Nat.cast : Nat → Int))) :
    ∀ x ∈ xs, 0 ≤ x ∧ x < (n : Int) := by
  intro x hx
  have hx2 := h.mem_iff.1 hx
  rcases List.mem_map.1 hx2 with ⟨k, hk, rfl⟩
  have := List.mem_range.1 hk
  constructor <;> omega

lemma dense_of_nb (s : Cards) (P : Nat)
    (hnd : (positionsOf s P).Nodup)
    (hb : ∀ x ∈ positionsOf s P, 0 ≤ x ∧ x < ((positionsOf s P).length : Int)) :
    Dense s P :=
  perm_range_of_nodup_bounds _ hnd hb

lemma nb_of_dense (s : Cards) (P : Nat) (h : Dense s P) :
    (positionsOf s P).Nodup ∧
      ∀ x ∈ positionsOf s P, 0 ≤ x ∧ x < ((positionsOf s P).length : Int) :=
  ⟨nodup_of_perm_range _ _ h, bounds_of_perm_range _ _ h⟩

lemma positionsOf_map (s : Cards) (P : Nat) (f : Card → Card) (q : Card → Bool)
    (hq : ∀ c ∈ s, ((f c).listId == P && !(f c).archived) = q c) :
    positionsOf (s.map f) P = (s.filter q).map (fun c => (f c).position) := by
  simp only [positionsOf]
  rw [List.filter_map, List.map_map,
    List.filter_congr (fun c hc => by simpa [Function.comp] using hq c hc)]
  rfl

lemma siblingCount_eq_length (s : Cards) (P : Nat) :
    siblingCount s P = (positionsOf s P).length := by
  simp [siblingCount, positionsOf]

lemma countDocuments_eq_length (s : Cards) (P : Nat) (h : PNoArch s P) :
    countDocuments s P = (positionsOf s P).length := by
  simp only [countDocuments, positionsOf, List.length_map]
  congr 1
  refine List.filter_congr ?_
  intro c hc
  cases hl : (c.listId == P) with
  | false => simp
  | true =>
    have ha : c.archived = false := h c hc (by simpa using hl)
    simp [ha]

lemma length_filter_split (s : Cards) (a b : Card → Bool) :
    (s.filter a).length =
      (s.filter (fun c => a c && b c)).length +
        (s.filter (fun c => a c && !b c)).length := by
  induction s with
  | nil => rfl
  | cons c cs ih =>
    cases ha : a c <;> cases hb : b c <;>
      simp [List.filter_cons, ha, hb, ih] <;> omega

/-! Preservation of well-formedness and of the P-no-archived property. -/

lemma nodupIds_map (s : Cards) (F : Card → Card)
    (hid : ∀ c, (F c).id = c.id) (hids : NodupIds s) : NodupIds (s.map F) := by
  unfold NodupIds
  rw [List.map_map]
  have h : ((fun c : Card => c.id) ∘ F) = fun c : Card => c.id := funext fun c => hid c
  rw [h]
  exact hids

lemma nodupIds_createCard (s : Cards) (newId l b : Nat)
    (hids : NodupIds s) (hfresh : ∀ c ∈ s, c.id ≠ newId) :
    NodupIds (createCard s newId l b) := by
  unfold NodupIds createCard
  rw [List.map_append, List.nodup_append]
  refine ⟨hids, by simp, ?_⟩
  intro x hx hmem
  rcases List.mem_map.1 hx with ⟨c, hc, rfl⟩
  simp only [List.map_cons, List.map_nil, List.mem_singleton] at hmem
  exact hfresh c hc hmem

lemma nodupIds_deleteCard (s : Cards) (cid : Nat) (hids : NodupIds s) :
    NodupIds (deleteCard s cid) := by
  unfold deleteCard
  cases hf : s.find? (fun c => c.id == cid) with
  | none => exact hids
  | some card =>
    unfold updateMany NodupIds
    rw [List.map_map]
    have h : ((fun c : Card => c.id) ∘ fun c =>
        if c.listId == card.listId && decide (card.position < c.position) && !c.archived
        then { c with position := c.position + (-1) } else c) =
        fun c : Card => c.id := by
      funext c
      by_cases hb : (c.listId == card.listId && decide (card.position < c.position) &&
        !c.archived) <;> simp [Function.comp, hb]
    rw [h]
    exact ((List.filter_sublist s).map _).nodup hids

lemma moveToList_cards_eq_map (s : Cards) (cid l : Nat) (topt : Option Int) :
    (moveToList s cid l topt).cards = s ∨
    ∃ F : Card → Card, (moveToList s cid l topt).cards = s.map F ∧
      (∀ c, (F c).id = c.id) ∧ (∀ c, (F c).archived = c.archived) ∧
      (∀ c, (F c).listId = c.listId ∨ ((F c).listId = l ∧ c.id = cid)) ∧
      (∀ card2, s.find? (fun c => c.id == cid) = some card2 →
        ∀ c, c.id ≠ cid → c.listId ≠ l → c.listId ≠ card2.listId → F c = c) := by
  cases hf : s.find? (fun c => c.id == cid) with
  | none => exact Or.inl (by rw [moveToList_none s cid l topt hf])
  | some card =>
    by_cases h2 : card.listId = l
    · cases topt with
      | none => exact Or.inl (by rw [moveToList_same_none s cid l card hf h2])
      | some t =>
        rcases lt_trichotomy card.position t with h4 | h4 | h4
        · rw [moveToList_same_later_raw s cid l t card hf h2 h4]
          by_cases hneg : t < 0
          · rw [saveMove_neg _ _ _ _ hneg]
            refine Or.inr ⟨fun c => if c.listId == card.listId &&
                decide (card.position < c.position) && decide (c.position ≤ t) &&
                c.id != cid then { c with position := c.position + (-1) } else c,
              rfl, ?_, ?_, ?_, ?_⟩
            · intro c; dsimp only; split <;> rfl
            · intro c; dsimp only; split <;> rfl
            · intro c; dsimp only; split <;> exact Or.inl rfl
            · intro card2 hf2 c h1 h2 h3
              first
                | rw [hf] at hf2
                | skip
              injection hf2 with hf3
              subst hf3
              dsimp only
              simp [h1, h2, h3]
          · rw [saveMove_nonneg _ _ _ _ (by omega)]
            refine Or.inr ⟨fun c =>
              (fun x => if x.id == cid then { x with listId := l, position := t } else x)
              ((fun x => if x.listId == card.listId &&
                  decide (card.position < x.position) && decide (x.position ≤ t) &&
                  x.id != cid then { x with position := x.position + (-1) } else x) c),
              ?_, ?_, ?_, ?_, ?_⟩
            · show (updateMany s _ (-1)).map _ = _
              simp only [updateMany, List.map_map]
              rfl
            · intro c; dsimp only; split <;> split <;> rfl
            · intro c; dsimp only; split <;> split <;> rfl
            · intro c
              dsimp only
              split <;> split <;>
                first
                  | exact Or.inl rfl
                  | (rename_i hsp; exact Or.inr ⟨rfl, by simpa using hsp⟩)
            · intro card2 hf2 c h1 h2 h3
              first
                | rw [hf] at hf2
                | skip
              injection hf2 with hf3
              subst hf3
              dsimp only
              simp [h1, h2, h3]
        · exact Or.inl (by rw [moveToList_same_self s cid l t card hf h2 h4.symm])
        · rw [moveToList_same_earlier_raw s cid l t card hf h2 h4]
          by_cases hneg : t < 0
          · rw [saveMove_neg _ _ _ _ hneg]
            refine Or.inr ⟨fun c => if c.listId == card.listId &&
                decide (t ≤ c.position) && decide (c.position < card.position) &&
                c.id != cid then { c with position := c.position + 1 } else c,
              rfl, ?_, ?_, ?_, ?_⟩
            · intro c; dsimp only; split <;> rfl
            · intro c; dsimp only; split <;> rfl
            · intro c; dsimp only; split <;> exact Or.inl rfl
            · intro card2 hf2 c h1 h2 h3
              first
                | rw [hf] at hf2
                | skip
              injection hf2 with hf3
              subst hf3
              dsimp only
              simp [h1, h2, h3]
          · rw [saveMove_nonneg _ _ _ _ (by omega)]
            refine Or.inr ⟨fun c =>
              (fun x => if x.id == cid then { x with listId := l, position := t } else x)
              ((fun x => if x.listId == card.listId &&
                  decide (t ≤ x.position) && decide (x.position < card.position) &&
                  x.id != cid then { x with position := x.position + 1 } else x) c),
              ?_, ?_, ?_, ?_, ?_⟩
            · show (updateMany s _ 1).map _ = _
              simp only [updateMany, List.map_map]
              rfl
            · intro c; dsimp only; split <;> split <;> rfl
            · intro c; dsimp only; split <;> split <;> rfl
            · intro c
              dsimp only
              split <;> split <;>
                first
                  | exact Or.inl rfl
                  | (rename_i hsp; exact Or.inr ⟨rfl, by simpa using hsp⟩)
            · intro card2 hf2 c h1 h2 h3
              first
                | rw [hf] at hf2
                | skip
              injection hf2 with hf3
              subst hf3
              dsimp only
              simp [h1, h2, h3]
    · rw [moveToList_cross_raw s cid l topt card hf h2]
      set t2 := topt.getD ((countDocuments s l : Int)) with ht2
      by_cases hneg : t2 < 0
      · rw [saveMove_neg _ _ _ _ hneg]
        refine Or.inr ⟨fun c =>
          (fun x => if x.listId == l && decide (t2 ≤ x.position)
            then { x with position := x.position + 1 } else x)
          ((fun x => if x.listId == card.listId && decide (card.position < x.position)
            then { x with position := x.position + (-1) } else x) c), ?_, ?_, ?_, ?_, ?_⟩
        · show updateMany (updateMany s _ (-1)) _ 1 = _
          simp only [updateMany, List.map_map]
          rfl
        · intro c; dsimp only; split <;> split <;> rfl
        · intro c; dsimp only; split <;> split <;> rfl
        · intro c; dsimp only; split <;> split <;> exact Or.inl rfl
        · intro card2 hf2 c h1 h2 h3
          first
            | rw [hf] at hf2
            | skip
          injection hf2 with hf3
          subst hf3
          dsimp only
          simp [h1, h2, h3]
      · rw [saveMove_nonneg _ _ _ _ (by omega)]
        refine Or.inr ⟨fun c =>
          (fun x => if x.id == cid then { x with listId := l, position := t2 } else x)
          ((fun x => if x.listId == l && decide (t2 ≤ x.position)
            then { x with position := x.position + 1 } else x)
          ((fun x => if x.listId == card.listId && decide (card.position < x.position)
            then { x with position := x.position + (-1) } else x) c)), ?_, ?_, ?_, ?_, ?_⟩
        · show (updateMany (updateMany s _ (-1)) _ 1).map _ = _
          simp only [updateMany, List.map_map]
          rfl
        · intro c; dsimp only; split <;> split <;> split <;> rfl
        · intro c; dsimp only; split <;> split <;> split <;> rfl
        · intro c
          dsimp only
          split <;> split <;> split <;>
            first
              | exact Or.inl rfl
              | (rename_i hsp; exact Or.inr ⟨rfl, by simpa using hsp⟩)
        · intro card2 hf2 c h1 h2 h3
          first
            | rw [hf] at hf2
            | skip
          injection hf2 with hf3
          subst hf3
          dsimp only
          simp [h1, h2, h3]

lemma nodupIds_moveToList (s : Cards) (cid l : Nat) (topt : Option Int)
    (hids : NodupIds s) : NodupIds (moveToList s cid l topt).cards := by
  rcases moveToList_cards_eq_map s cid l topt with h | ⟨F, hF, hid, _, _, _⟩
  · rw [h]; exact hids
  · rw [hF]; exact nodupIds_map s F hid hids

lemma pnoarch_moveToList (s : Cards) (cid l P : Nat) (topt : Option Int)
    (hids : NodupIds s) (hna : PNoArch s P)
    (harch : ∀ card, s.find? (fun c => c.id == cid) = some card → l = P →
      card.archived = false) :
    PNoArch (moveToList s cid l topt).cards P := by
  rcases moveToList_cards_eq_map s cid l topt with h | ⟨F, hF, hid, harc, hlid, _⟩
  · rw [h]; exact hna
  · rw [hF]
    intro c' hc' hP
    rcases List.mem_map.1 hc' with ⟨c, hc, rfl⟩
    rcases hlid c with h1 | ⟨h2, h3⟩
    · rw [harc c]
      exact hna c hc (by rw [← h1]; exact hP)
    · cases hfind : s.find? (fun x => x.id == cid) with
      | none =>
        exfalso
        have := List.find?_eq_none.1 hfind c hc
        simp [h3] at this
      | some card =>
        have hceq : c = card := eq_of_mem_of_id s cid card c hids hfind hc h3
        rw [harc c, hceq]
        exact harch card hfind (by rw [← h2]; exact hP)

lemma pnoarch_createCard (s : Cards) (P newId l b : Nat) (hna : PNoArch s P) :
    PNoArch (createCard s newId l b) P := by
  intro c hc hlp
  rcases List.mem_append.1 hc with h | h
  · exact hna c h hlp
  · simp only [List.mem_singleton] at h
    rw [h]

lemma pnoarch_deleteCard (s : Cards) (P cid : Nat) (hna : PNoArch s P) :
    PNoArch (deleteCard s cid) P := by
  unfold deleteCard
  cases hf : s.find? (fun c => c.id == cid) with
  | none => exact hna
  | some card =>
    intro c' hc' hP
    rcases List.mem_map.1 hc' with ⟨c, hc, rfl⟩
    have hcs : c ∈ s := List.mem_of_mem_filter hc
    by_cases hb : (c.listId == card.listId && decide (card.position < c.position) &&
        !c.archived) = true
    · simp only [hb, if_true] at hP ⊢
      exact hna c hcs hP
    · simp only [hb, if_false] at hP ⊢
      exact hna c hcs hP

lemma dense_createCard (s : Cards) (P newId l b : Nat)
    (hna : PNoArch s P) (hd : Dense s P) :
    Dense (createCard s newId l b) P := by
  have hcount := countDocuments_eq_length s P hna
  by_cases hl : l = P
  · have hpos : positionsOf (createCard s newId l b) P =
        positionsOf s P ++ [(countDocuments s l : Int)] := by
      simp [positionsOf, createCard, List.filter_append, hl]
    unfold Dense at hd ⊢
    rw [hpos]
    have hlen : (positionsOf s P ++ [(countDocuments s l : Int)]).length =
        (positionsOf s P).length + 1 := by simp
    rw [hlen, List.range_succ, List.map_append]
    refine List.Perm.append hd ?_
    subst hl
    rw [hcount]
    simp
  · have hpos : positionsOf (createCard s newId l b) P = positionsOf s P := by
      simp [positionsOf, createCard, List.filter_append, hl]
    unfold Dense at hd ⊢
    rw [hpos]
    exact hd

lemma dense_moveWithin_inP (s : Cards) (cid P : Nat) (t : Int) (card : Card)
    (hids : NodupIds s)
    (hfind : s.find? (fun c => c.id == cid) = some card)
    (hl : card.listId = P)
    (hna : PNoArch s P) (hd : Dense s P)
    (ht0 : 0 ≤ t) (htn : t < (countDocuments s P : Int)) :
    Dense (moveToList s cid P (some t)).cards P := by
  obtain ⟨hok, hcards⟩ := moveToList_same_map s cid P t card hids hfind hl ht0
  obtain ⟨hnd, hbb⟩ := nb_of_dense s P hd
  have hcnt := countDocuments_eq_length s P hna
  rw [hcnt] at htn
  have hmem : card ∈ s := List.mem_of_find?_eq_some hfind
  have hcid : card.id = cid := by simpa using List.find?_some hfind
  have harch : card.archived = false := hna card hmem hl
  have hcardz : card ∈ s.filter (fun c => c.listId == P && !c.archived) :=
    List.mem_filter.2 ⟨hmem, by simp [hl, harch]⟩
  have hpmem : card.position ∈ positionsOf s P := List.mem_map.2 ⟨card, hcardz, rfl⟩
  obtain ⟨hp0, hpn⟩ := hbb _ hpmem
  rw [hcards]
  set F : Card → Card := fun c =>
    if c.id = cid then { c with listId := P, position := t }
    else if c.listId = P ∧ card.position < c.position ∧ c.position ≤ t then
      { c with position := c.position - 1 }
    else if c.listId = P ∧ t ≤ c.position ∧ c.position < card.position then
      { c with position := c.position + 1 }
    else c with hFdef
  have hq : ∀ c ∈ s, (((F c).listId == P) && !(F c).archived) =
      (c.listId == P && !c.archived) := by
    intro c hc
    by_cases h1 : c.id = cid
    · have hceq : c = card := eq_of_mem_of_id s cid card c hids hfind hc h1
      rw [hFdef]
      simp only [h1, if_true]
      rw [hceq]
      simp [hl]
    · rw [hFdef]
      simp only [h1, if_false]
      by_cases h2 : c.listId = P ∧ card.position < c.position ∧ c.position ≤ t
      · simp [h2]
      · simp only [h2, if_false]
        by_cases h3 : c.listId = P ∧ t ≤ c.position ∧ c.position < card.position
        · simp [h3]
        · simp [h3]
  have hpm := positionsOf_map s P F _ hq
  have hform : ∀ c ∈ s.filter (fun c => c.listId == P && !c.archived),
      (F c).position =
        (if c.position = card.position then t
         else if card.position < c.position ∧ c.position ≤ t then c.position - 1
         else if t ≤ c.position ∧ c.position < card.position then c.position + 1
         else c.position) := by
    intro c hc
    obtain ⟨hcs, hcb⟩ := List.mem_filter.1 hc
    have hclP : c.listId = P := by
      simp only [Bool.and_eq_true, beq_iff_eq, Bool.not_eq_true'] at hcb
      exact hcb.1
    by_cases h1 : c.id = cid
    · have hceq : c = card := eq_of_mem_of_id s cid card c hids hfind hcs h1
      rw [hFdef]
      simp only [h1, if_true]
      rw [hceq]
      simp
    · have hpne : c.position ≠ card.position := by
        intro he
        have hcc := List.inj_on_of_nodup_map hnd hc hcardz he
        exact h1 (by rw [hcc, hcid])
      rw [hFdef]
      simp only [h1, if_false]
      by_cases h2 : card.position < c.position ∧ c.position ≤ t
      · rw [if_pos ⟨hclP, h2.1, h2.2⟩, if_neg hpne, if_pos h2]
      · rw [if_neg (fun hx => h2 ⟨hx.2.1, hx.2.2⟩), if_neg hpne, if_neg h2]
        by_cases h3 : t ≤ c.position ∧ c.position < card.position
        · rw [if_pos ⟨hclP, h3.1, h3.2⟩, if_pos h3]
        · rw [if_neg (fun hx => h3 ⟨hx.2.1, hx.2.2⟩), if_neg h3]
  have hmap2 : (s.filter (fun c => c.listId == P && !c.archived)).map
      (fun c => (F c).position) =
      (positionsOf s P).map (fun x =>
        if x = card.position then t
        else if card.position < x ∧ x ≤ t then x - 1
        else if t ≤ x ∧ x < card.position then x + 1
        else x) := by
    rw [List.map_congr_left hform, positionsOf, List.map_map]
    rfl
  refine dense_of_nb _ _ ?_ ?_
  · rw [hpm, hmap2]
    refine List.Nodup.map_on ?_ hnd
    intro x hx y hy hxy
    obtain ⟨hx0, hx1⟩ := hbb x hx
    obtain ⟨hy0, hy1⟩ := hbb y hy
    split_ifs at hxy <;> omega
  · rw [hpm, hmap2]
    intro x hx
    rw [List.length_map]
    rcases List.mem_map.1 hx with ⟨y, hy, rfl⟩
    obtain ⟨hy0, hy1⟩ := hbb y hy
    split_ifs <;> omega

lemma length_filter_id_eq_one (s : Cards) (cid : Nat) (card : Card)
    (hids : NodupIds s) (hmem : card ∈ s) (hcard : card.id = cid) :
    (s.filter (fun c => c.id == cid)).length = 1 := by
  have h1 : (s.map (fun c => c.id)).count cid = 1 :=
    List.count_eq_one_of_mem hids (List.mem_map.2 ⟨card, hmem, hcard⟩)
  have h2 : (s.map (fun c => c.id)).count cid =
      (s.filter (fun c => c.id == cid)).length := by
    rw [List.count_eq_countP, List.countP_map, List.countP_eq_length_filter]
    rfl
  rw [← h2, h1]

lemma dense_moveOut (s : Cards) (cid l : Nat) (topt : Option Int) (card : Card)
    (tstar : Int)
    (hids : NodupIds s)
    (hfind : s.find? (fun c => c.id == cid) = some card)
    (hne : card.listId ≠ l)
    (harch : card.archived = false) (hd : Dense s card.listId)
    (htstar : tstar = topt.getD ((countDocuments s l : Int)))
    (ht0 : 0 ≤ tstar) :
    Dense (moveToList s cid l topt).cards card.listId := by
  set P := card.listId with hP
  obtain ⟨hok, hcards⟩ := moveToList_cross_map s cid l topt card tstar hfind hne htstar ht0
  obtain ⟨hnd, hbb⟩ := nb_of_dense s P hd
  have hmem : card ∈ s := List.mem_of_find?_eq_some hfind
  have hcid : card.id = cid := by simpa using List.find?_some hfind
  have hcardz : card ∈ s.filter (fun c => c.listId == P && !c.archived) :=
    List.mem_filter.2 ⟨hmem, by simp [harch]⟩
  have hpmem : card.position ∈ positionsOf s P := List.mem_map.2 ⟨card, hcardz, rfl⟩
  obtain ⟨hp0, hpn⟩ := hbb _ hpmem
  rw [hcards]
  set F : Card → Card := fun c =>
    if c.id = cid then { c with listId := l, position := tstar }
    else if c.listId = card.listId ∧ card.position < c.position then
      { c with position := c.position - 1 }
    else if c.listId = l ∧ tstar ≤ c.position then
      { c with position := c.position + 1 }
    else c with hFdef
  have hq : ∀ c ∈ s, (((F c).listId == P) && !(F c).archived) =
      ((c.listId == P && !c.archived) && (c.id != cid)) := by
    intro c hc
    by_cases h1 : c.id = cid
    · have hceq : c = card := eq_of_mem_of_id s cid card c hids hfind hc h1
      rw [hFdef]
      simp only [h1, if_true]
      have hlp : (l == P) = false := by
        simp only [beq_eq_false_iff_ne, ne_eq]
        exact fun h => hne h.symm
      simp [hlp, h1]
    · rw [hFdef]
      simp only [h1, if_false]
      have hid1 : (c.id != cid) = true := by simp [h1]
      by_cases h2 : c.listId = card.listId ∧ card.position < c.position
      · simp [h2, hid1]
      · simp only [h2, if_false]
        by_cases h3 : c.listId = l ∧ tstar ≤ c.position
        · have hlp : (l == P) = false := by
            simp only [beq_eq_false_iff_ne, ne_eq]
            exact fun h => hne h.symm
          simp [h3, hlp, hid1]
        · simp [h3, hid1]
  have hpm := positionsOf_map s P F _ hq
  have hsplit := length_filter_split s (fun c => c.listId == P && !c.archived)
    (fun c => c.id != cid)
  have hone : (s.filter (fun c => (c.listId == P && !c.archived) && !(c.id != cid))).length
      = 1 := by
    have hcg : s.filter (fun c => (c.listId == P && !c.archived) && !(c.id != cid)) =
        s.filter (fun c => c.id == cid) := by
      refine List.filter_congr ?_
      intro c hc
      by_cases h1 : c.id = cid
      · have hceq : c = card := eq_of_mem_of_id s cid card c hids hfind hc h1
        rw [hceq]
        simp [harch, hcid, hP]
      · have hb : (c.id == cid) = false := by simp [h1]
        simp [bne, hb]
    rw [hcg]
    exact length_filter_id_eq_one s cid card hids hmem hcid
  have hform : ∀ c ∈ s.filter (fun c => (c.listId == P && !c.archived) && (c.id != cid)),
      (F c).position =
        (if card.position < c.position then c.position - 1 else c.position) := by
    intro c hc
    obtain ⟨hcs, hcb⟩ := List.mem_filter.1 hc
    have hclP : c.listId = P := by
      simp only [Bool.and_eq_true, beq_iff_eq, Bool.not_eq_true', bne_iff_ne, ne_eq] at hcb
      exact hcb.1.1
    have h1 : ¬ c.id = cid := by
      simp only [Bool.and_eq_true, bne_iff_ne, ne_eq] at hcb
      exact hcb.2
    rw [hFdef]
    simp only [h1, if_false]
    by_cases h2 : card.position < c.position
    · rw [if_pos ⟨hclP, h2⟩, if_pos h2]
    · rw [if_neg (fun hx => h2 hx.2), if_neg h2]
      have h3 : ¬ (c.listId = l ∧ tstar ≤ c.position) := by
        rintro ⟨h4, _⟩
        exact hne (hP ▸ (hclP ▸ h4 : P = l))
      rw [if_neg h3]
  have hzmem : ∀ c ∈ s.filter (fun c => (c.listId == P && !c.archived) && (c.id != cid)),
      c ∈ s.filter (fun c => c.listId == P && !c.archived) := by
    intro c hc
    obtain ⟨hcs, hcb⟩ := List.mem_filter.1 hc
    refine List.mem_filter.2 ⟨hcs, ?_⟩
    simp only [Bool.and_eq_true] at hcb ⊢
    exact hcb.1
  have hpne : ∀ c ∈ s.filter (fun c => (c.listId == P && !c.archived) && (c.id != cid)),
      c.position ≠ card.position := by
    intro c hc he
    obtain ⟨hcs, hcb⟩ := List.mem_filter.1 hc
    have h1 : ¬ c.id = cid := by
      simp only [Bool.and_eq_true, bne_iff_ne, ne_eq] at hcb
      exact hcb.2
    have hcc := List.inj_on_of_nodup_map hnd (hzmem c hc) hcardz he
    exact h1 (by rw [hcc, hcid])
  refine dense_of_nb _ _ ?_ ?_
  · rw [hpm]
    refine List.Nodup.map_on ?_ ?_
    · intro x hx y hy hxy
      have hx2 := hbb _ (List.mem_map.2 ⟨x, hzmem x hx, rfl⟩)
      have hy2 := hbb _ (List.mem_map.2 ⟨y, hzmem y hy, rfl⟩)
      rw [hform x hx, hform y hy] at hxy
      have hxp := hpne x hx
      have hyp := hpne y hy
      have hxy2 : x.position = y.position := by
        split_ifs at hxy <;> omega
      exact List.inj_on_of_nodup_map hnd (hzmem x hx) (hzmem y hy) hxy2
    · exact (List.filter_sublist s).nodup (List.Nodup.of_map _ hids)
  · rw [hpm]
    intro x hx
    rw [List.length_map]
    rcases List.mem_map.1 hx with ⟨c, hc, rfl⟩
    have hcb := hbb _ (List.mem_map.2 ⟨c, hzmem c hc, rfl⟩)
    have hcp := hpne c hc
    have hlen2 : (positionsOf s P).length =
        (s.filter (fun c => (c.listId == P && !c.archived) && (c.id != cid))).length + 1 := by
      have : (positionsOf s P).length =
          (s.filter (fun c => c.listId == P && !c.archived)).length := by
        simp [positionsOf]
      rw [this, hsplit, hone]
    rw [hform c hc]
    rw [hlen2] at hcb hpn
    split_ifs <;> constructor <;> omega

/-- A move whose source and destination are both unrelated to P does not
change the positions of the cards of P. -/
lemma positionsOf_moveToList_other (s : Cards) (cid l P : Nat) (topt : Option Int)
    (hids : NodupIds s)
    (hsrc : ∀ card, s.find? (fun c => c.id == cid) = some card → card.listId ≠ P)
    (hlP : l ≠ P) :
    positionsOf (moveToList s cid l topt).cards P = positionsOf s P := by
  cases hf : s.find? (fun c => c.id == cid) with
  | none => rw [moveToList_none s cid l topt hf]
  | some card =>
    have hcardl := hsrc card hf
    rcases moveToList_cards_eq_map s cid l topt with h | ⟨F, hF, hid, harc, hlid, hfix⟩
    · rw [h]
    · rw [hF]
      have hq : ∀ c ∈ s, (((F c).listId == P) && !(F c).archived) =
          (c.listId == P && !c.archived) := by
        intro c hc
        by_cases h1 : c.id = cid
        · rcases hlid c with h2 | ⟨h2, _⟩
          · rw [harc c, h2]
          · rw [harc c, h2]
            have hl1 : (l == P) = false := by simp [hlP]
            have hc1 : (c.listId == P) = false := by
              have hceq : c = card := eq_of_mem_of_id s cid card c hids hf hc h1
              rw [hceq]
              simp [hcardl]
            rw [hl1, hc1]
        · rcases hlid c with h2 | ⟨_, h3⟩
          · rw [harc c, h2]
          · exact absurd h3 h1
      rw [positionsOf_map s P F _ hq]
      have hfix2 : ∀ c ∈ s.filter (fun c => c.listId == P && !c.archived),
          (F c).position = c.position := by
        intro c hc
        obtain ⟨hcs, hcb⟩ := List.mem_filter.1 hc
        have hclP : c.listId = P := by
          simp only [Bool.and_eq_true, beq_iff_eq] at hcb
          exact hcb.1
        have h1 : c.id ≠ cid := by
          intro he
          have hceq : c = card := eq_of_mem_of_id s cid card c hids hf hcs he
          exact hcardl (by rw [← hceq]; exact hclP)
        rw [hfix card hf c h1 (by rw [hclP]; exact Ne.symm hlP)
          (by rw [hclP]; exact Ne.symm hcardl)]
      rw [List.map_congr_left hfix2]
      rfl

/-- Closing the slot of a removed position keeps the remaining positions
nodup and within the shrunken bound. -/
lemma nb_shift_down (xs : List Int) (p : Int) (n : Nat)
    (hnd : xs.Nodup)
    (hb : ∀ x ∈ xs, 0 ≤ x ∧ x < (n : Int))
    (hlen : xs.length + 1 = n)
    (hp : 0 ≤ p) (hpn : p < (n : Int))
    (hne : ∀ x ∈ xs, x ≠ p) :
    (xs.map (fun x => if p < x then x - 1 else x)).Nodup ∧
      ∀ y ∈ xs.map (fun x => if p < x then x - 1 else x),
        0 ≤ y ∧ y < ((xs.map (fun x => if p < x then x - 1 else x)).length : Int) := by
  constructor
  · refine List.Nodup.map_on ?_ hnd
    intro x hx y hy hxy
    have hbx := hb x hx
    have hby := hb y hy
    have hnex := hne x hx
    have hney := hne y hy
    split_ifs at hxy <;> omega
  · intro y hy
    rw [List.length_map]
    rcases List.mem_map.1 hy with ⟨x, hx, rfl⟩
    have hbx := hb x hx
    have hnex := hne x hx
    split_ifs <;> constructor <;> omega

lemma deleteCard_some (s : Cards) (cid : Nat) (card : Card)
    (hf : s.find? (fun c => c.id == cid) = some card) :
    deleteCard s cid = updateMany (s.filter (fun c => c.id != cid))
      (fun c => c.listId == card.listId && decide (card.position < c.position) &&
        !c.archived) (-1) := by
  simp only [deleteCard, hf]

lemma dense_deleteCard (s : Cards) (cid P : Nat)
    (hids : NodupIds s) (hna : PNoArch s P) (hd : Dense s P) :
    Dense (deleteCard s cid) P := by
  obtain ⟨hnd, hbb⟩ := nb_of_dense s P hd
  cases hf : s.find? (fun c => c.id == cid) with
  | none =>
    unfold deleteCard
    rw [hf]
    exact hd
  | some card =>
    have hmem : card ∈ s := List.mem_of_find?_eq_some hf
    have hcid : card.id = cid := by simpa using List.find?_some hf
    rw [deleteCard_some s cid card hf]
    rw [show updateMany (s.filter (fun c => c.id != cid))
        (fun c => c.listId == card.listId && decide (card.position < c.position) &&
          !c.archived) (-1) =
      (s.filter (fun c => c.id != cid)).map
        (fun c => if c.listId == card.listId && decide (card.position < c.position) &&
          !c.archived then { c with position := c.position + (-1) } else c) from rfl]
    have hq : ∀ c ∈ s.filter (fun c => c.id != cid),
        ((((fun c => if c.listId == card.listId && decide (card.position < c.position) &&
            !c.archived then { c with position := c.position + (-1) } else c) c).listId == P)
          && !((fun c => if c.listId == card.listId && decide (card.position < c.position) &&
            !c.archived then { c with position := c.position + (-1) } else c) c).archived) =
        (c.listId == P && !c.archived) := by
      intro c _
      by_cases hb : (c.listId == card.listId && decide (card.position < c.position) &&
        !c.archived) = true <;> simp only [hb, if_true, if_false] <;> simp [hb]
    have hpm := positionsOf_map (s.filter (fun c => c.id != cid)) P _ _ hq
    have hzz : (s.filter (fun c => c.id != cid)).filter
        (fun c => c.listId == P && !c.archived) =
        s.filter (fun c => (c.listId == P && !c.archived) && (c.id != cid)) := by
      rw [List.filter_filter]
    by_cases hcl : card.listId = P
    · have harch : card.archived = false := hna card hmem hcl
      have hcardz : card ∈ s.filter (fun c => c.listId == P && !c.archived) :=
        List.mem_filter.2 ⟨hmem, by simp [hcl, harch]⟩
      have hpmem : card.position ∈ positionsOf s P := List.mem_map.2 ⟨card, hcardz, rfl⟩
      obtain ⟨hp0, hpn⟩ := hbb _ hpmem
      have hone : (s.filter (fun c =>
          (c.listId == P && !c.archived) && !(c.id != cid))).length = 1 := by
        have hcg : s.filter (fun c => (c.listId == P && !c.archived) && !(c.id != cid)) =
            s.filter (fun c => c.id == cid) := by
          refine List.filter_congr ?_
          intro c hc
          by_cases h1 : c.id = cid
          · have hceq : c = card := eq_of_mem_of_id s cid card c hids hf hc h1
            rw [hceq]
            simp [harch, hcid, hcl]
          · have hb : (c.id == cid) = false := by simp [h1]
            simp [bne, hb]
        rw [hcg]
        exact length_filter_id_eq_one s cid card hids hmem hcid
      have hsplit := length_filter_split s (fun c => c.listId == P && !c.archived)
        (fun c => c.id != cid)
      have hlen1 : (positionsOf s P).length =
          (s.filter (fun c => (c.listId == P && !c.archived) && (c.id != cid))).length
            + 1 := by
        have h0 : (positionsOf s P).length =
            (s.filter (fun c => c.listId == P && !c.archived)).length := by
          simp [positionsOf]
        rw [h0, hsplit, hone]
      set zs2 := s.filter (fun c => (c.listId == P && !c.archived) && (c.id != cid))
        with hzs2
      have hzmem : ∀ c ∈ zs2, c ∈ s.filter (fun c => c.listId == P && !c.archived) := by
        intro c hc
        obtain ⟨hcs, hcb⟩ := List.mem_filter.1 hc
        refine List.mem_filter.2 ⟨hcs, ?_⟩
        simp only [Bool.and_eq_true] at hcb ⊢
        exact hcb.1
      have hpne : ∀ c ∈ zs2, c.position ≠ card.position := by
        intro c hc he
        obtain ⟨hcs, hcb⟩ := List.mem_filter.1 hc
        have h1 : ¬ c.id = cid := by
          simp only [Bool.and_eq_true, bne_iff_ne, ne_eq] at hcb
          exact hcb.2
        have hcc := List.inj_on_of_nodup_map hnd (hzmem c hc) hcardz he
        exact h1 (by rw [hcc, hcid])
      have hform : ∀ c ∈ zs2,
          ((fun c => if c.listId == card.listId && decide (card.position < c.position) &&
            !c.archived then { c with position := c.position + (-1) } else c) c).position =
          (fun x => if card.position < x then x - 1 else x) c.position := by
        intro c hc
        obtain ⟨hcs, hcb⟩ := List.mem_filter.1 hc
        have hcb2 : c.listId = P ∧ c.archived = false := by
          simp only [Bool.and_eq_true, beq_iff_eq, Bool.not_eq_true'] at hcb
          exact ⟨hcb.1.1, hcb.1.2⟩
        by_cases h2 : card.position < c.position
        · have hll : c.listId = card.listId := by rw [hcb2.1, hcl]
          simp [hll, hcb2.2, h2, Int.sub_eq_add_neg]
        · have hbt : (c.listId == card.listId && decide (card.position < c.position) &&
              !c.archived) = false := by
            simp [h2]
          simp [hbt, h2]
      have hxs_sub : List.Sublist (zs2.map (fun c => c.position)) (positionsOf s P) := by
        have hzs3 : zs2 = (s.filter (fun c => c.listId == P && !c.archived)).filter
            (fun c => c.id != cid) := by
          rw [List.filter_filter, hzs2]
          exact List.filter_congr fun c _ => Bool.and_comm _ _
        rw [hzs3]
        exact (List.filter_sublist _).map _
      obtain ⟨hnd2, hbd2⟩ := nb_shift_down (zs2.map (fun c => c.position)) card.position
        (positionsOf s P).length
        (hnd.sublist hxs_sub)
        (fun x hx => hbb x (hxs_sub.subset hx))
        (by rw [List.length_map]; omega)
        hp0 hpn
        (by
          intro x hx
          rcases List.mem_map.1 hx with ⟨c, hc, rfl⟩
          exact hpne c hc)
      refine dense_of_nb _ _ ?_ ?_
      · rw [hpm, hzz]
        have : zs2.map (fun c =>
            ((fun c => if c.listId == card.listId && decide (card.position < c.position) &&
              !c.archived then { c with position := c.position + (-1) } else c) c).position) =
            (zs2.map (fun c => c.position)).map
              (fun x => if card.position < x then x - 1 else x) := by
          rw [List.map_map]
          exact List.map_congr_left hform
        rw [this]
        exact hnd2
      · rw [hpm, hzz]
        have : zs2.map (fun c =>
            ((fun c => if c.listId == card.listId && decide (card.position < c.position) &&
              !c.archived then { c with position := c.position + (-1) } else c) c).position) =
            (zs2.map (fun c => c.position)).map
              (fun x => if card.position < x then x - 1 else x) := by
          rw [List.map_map]
          exact List.map_congr_left hform
        rw [this]
        exact hbd2
    · -- the deleted card is not in P: positions of P unchanged
      have hcg : s.filter (fun c => (c.listId == P && !c.archived) && (c.id != cid)) =
          s.filter (fun c => c.listId == P && !c.archived) := by
        refine List.filter_congr ?_
        intro c hc
        by_cases h1 : c.id = cid
        · have hceq : c = card := eq_of_mem_of_id s cid card c hids hf hc h1
          have : (c.listId == P) = false := by
            rw [hceq]
            simp [hcl]
          simp [this]
        · have hb : (c.id != cid) = true := by simp [h1]
          simp [hb]
      have hform2 : ∀ c ∈ s.filter (fun c => c.listId == P && !c.archived),
          ((fun c => if c.listId == card.listId && decide (card.position < c.position) &&
            !c.archived then { c with position := c.position + (-1) } else c) c).position =
          c.position := by
        intro c hc
        obtain ⟨hcs, hcb⟩ := List.mem_filter.1 hc
        have hclP : c.listId = P := by
          simp only [Bool.and_eq_true, beq_iff_eq] at hcb
          exact hcb.1
        have hbf : (c.listId == card.listId && decide (card.position < c.position) &&
            !c.archived) = false := by
          have : (c.listId == card.listId) = false := by
            rw [hclP]
            simp [Ne.symm hcl]
          simp [this]
        simp [hbf]
      have hps : positionsOf ((s.filter (fun c => c.id != cid)).map
          (fun c => if c.listId == card.listId && decide (card.position < c.position) &&
            !c.archived then { c with position := c.position + (-1) } else c)) P =
          positionsOf s P := by
        rw [hpm, hzz, hcg]
        rw [List.map_congr_left hform2]
        rfl
      unfold Dense
      rw [hps]
      exact hd

lemma dense_moveIn (s : Cards) (cid P : Nat) (topt : Option Int) (card : Card)
    (tstar : Int)
    (hids : NodupIds s)
    (hfind : s.find? (fun c => c.id == cid) = some card)
    (hne : card.listId ≠ P)
    (harch : card.archived = false)
    (hna : PNoArch s P) (hd : Dense s P)
    (htstar : tstar = topt.getD ((countDocuments s P : Int)))
    (ht0 : 0 ≤ tstar) (htn : tstar ≤ ((positionsOf s P).length : Int)) :
    Dense (moveToList s cid P topt).cards P := by
  obtain ⟨hok, hcards⟩ := moveToList_cross_map s cid P topt card tstar hfind hne htstar ht0
  obtain ⟨hnd, hbb⟩ := nb_of_dense s P hd
  have hmem : card ∈ s := List.mem_of_find?_eq_some hfind
  have hcid : card.id = cid := by simpa using List.find?_some hfind
  rw [hcards]
  set F : Card → Card := fun c =>
    if c.id = cid then { c with listId := P, position := tstar }
    else if c.listId = card.listId ∧ card.position < c.position then
      { c with position := c.position - 1 }
    else if c.listId = P ∧ tstar ≤ c.position then
      { c with position := c.position + 1 }
    else c with hFdef
  have hq : ∀ c ∈ s, (((F c).listId == P) && !(F c).archived) =
      ((c.listId == P && !c.archived) || (c.id == cid)) := by
    intro c hc
    by_cases h1 : c.id = cid
    · have hceq : c = card := eq_of_mem_of_id s cid card c hids hfind hc h1
      rw [hFdef]
      simp only [h1, if_true]
      rw [hceq]
      simp [harch, hcid]
    · rw [hFdef]
      simp only [h1, if_false]
      have hb1 : (c.id == cid) = false := by simp [h1]
      by_cases h2 : c.listId = card.listId ∧ card.position < c.position
      · have hcl : (c.listId == P) = false := by
          rw [h2.1]
          simp [hne]
        simp [h2, hcl, hb1]
      · simp only [h2, if_false]
        by_cases h3 : c.listId = P ∧ tstar ≤ c.position
        · simp [h3, hb1]
        · simp [h3, hb1]
  have hpm := positionsOf_map s P F _ hq
  have hsplit := length_filter_split s
    (fun c => (c.listId == P && !c.archived) || (c.id == cid))
    (fun c => c.listId == P && !c.archived)
  have hqa : s.filter (fun c =>
      ((c.listId == P && !c.archived) || (c.id == cid)) && (c.listId == P && !c.archived)) =
      s.filter (fun c => c.listId == P && !c.archived) := by
    refine List.filter_congr ?_
    intro c _
    cases h : (c.listId == P && !c.archived) <;> simp [h]
  have hqb : s.filter (fun c =>
      ((c.listId == P && !c.archived) || (c.id == cid)) && !(c.listId == P && !c.archived)) =
      s.filter (fun c => c.id == cid) := by
    refine List.filter_congr ?_
    intro c hc
    by_cases h1 : c.id = cid
    · have hceq : c = card := eq_of_mem_of_id s cid card c hids hfind hc h1
      have hcl : (c.listId == P) = false := by
        rw [hceq]
        simp [hne]
      simp [hcl, h1]
    · have hb1 : (c.id == cid) = false := by simp [h1]
      cases h : (c.listId == P && !c.archived) <;> simp [h, hb1]
  have hone := length_filter_id_eq_one s cid card hids hmem hcid
  have hlenq : (s.filter (fun c =>
      (c.listId == P && !c.archived) || (c.id == cid))).length =
      (positionsOf s P).length + 1 := by
    have h0 : (positionsOf s P).length =
        (s.filter (fun c => c.listId == P && !c.archived)).length := by
      simp [positionsOf]
    rw [hsplit, hqa, hqb, hone, h0]
  have hmemP : ∀ c ∈ s.filter (fun c =>
      (c.listId == P && !c.archived) || (c.id == cid)), c.id ≠ cid →
      c ∈ s.filter (fun c => c.listId == P && !c.archived) := by
    intro c hc h1
    obtain ⟨hcs, hcb⟩ := List.mem_filter.1 hc
    refine List.mem_filter.2 ⟨hcs, ?_⟩
    simp only [Bool.or_eq_true] at hcb
    rcases hcb with h | h
    · exact h
    · exact absurd (by simpa using h) h1
  have hform : ∀ c ∈ s.filter (fun c =>
      (c.listId == P && !c.archived) || (c.id == cid)),
      (F c).position = (if c.id = cid then tstar
        else if tstar ≤ c.position then c.position + 1 else c.position) := by
    intro c hc
    by_cases h1 : c.id = cid
    · rw [hFdef]
      simp [h1]
    · have hcP := hmemP c hc h1
      obtain ⟨hcs, hcb⟩ := List.mem_filter.1 hcP
      have hclP : c.listId = P := by
        simp only [Bool.and_eq_true, beq_iff_eq] at hcb
        exact hcb.1
      have h2 : ¬ (c.listId = card.listId ∧ card.position < c.position) := by
        rintro ⟨h3, _⟩
        exact hne (by rw [← h3, hclP])
      rw [hFdef]
      simp only [h1, if_false]
      by_cases h3 : tstar ≤ c.position
      · rw [if_neg h2, if_pos ⟨hclP, h3⟩, if_pos h3]
      · rw [if_neg h2, if_neg (fun hx => h3 hx.2), if_neg h3]
  refine dense_of_nb _ _ ?_ ?_
  · rw [hpm]
    refine List.Nodup.map_on ?_ ?_
    · intro x hx y hy hxy
      rw [hform x hx, hform y hy] at hxy
      by_cases hx1 : x.id = cid <;> by_cases hy1 : y.id = cid
      · have hxe : x = card :=
          eq_of_mem_of_id s cid card x hids hfind (List.mem_of_mem_filter hx) hx1
        have hye : y = card :=
          eq_of_mem_of_id s cid card y hids hfind (List.mem_of_mem_filter hy) hy1
        rw [hxe, hye]
      · exfalso
        rw [if_pos hx1, if_neg hy1] at hxy
        split_ifs at hxy <;> omega
      · exfalso
        rw [if_neg hx1, if_pos hy1] at hxy
        split_ifs at hxy <;> omega
      · have hxP := hmemP x hx hx1
        have hyP := hmemP y hy hy1
        rw [if_neg hx1, if_neg hy1] at hxy
        have hxy2 : x.position = y.position := by
          split_ifs at hxy <;> omega
        exact List.inj_on_of_nodup_map hnd hxP hyP hxy2
    · exact (List.filter_sublist s).nodup (List.Nodup.of_map _ hids)
  · rw [hpm]
    intro x hx
    rw [List.length_map, hlenq]
    rcases List.mem_map.1 hx with ⟨c, hc, rfl⟩
    rw [hform c hc]
    by_cases h1 : c.id = cid
    · rw [if_pos h1]
      constructor
      · exact ht0
      · omega
    · rw [if_neg h1]
      have hcP := hmemP c hc h1
      have hcb := hbb _ (List.mem_map.2 ⟨c, hcP, rfl⟩)
      split_ifs <;> constructor <;> omega

lemma applyOp_preserves (P : Nat) (s : Cards) (op : Op)
    (hids : NodupIds s) (hna : PNoArch s P) (hd : Dense s P) (hv : Valid P s op) :
    NodupIds (applyOp s op) ∧ PNoArch (applyOp s op) P ∧ Dense (applyOp s op) P := by
  cases op with
  | insert newId l b =>
    exact ⟨nodupIds_createCard s newId l b hids hv,
      pnoarch_createCard s P newId l b hna,
      dense_createCard s P newId l b hna hd⟩
  | moveWithin cid t =>
    cases hf : s.find? (fun c => c.id == cid) with
    | none =>
      simp only [applyOp, hf]
      exact ⟨hids, hna, hd⟩
    | some card =>
      simp only [applyOp, hf]
      obtain ⟨ht0, htn⟩ := hv card hf
      refine ⟨nodupIds_moveToList _ _ _ _ hids, ?_, ?_⟩
      · refine pnoarch_moveToList s cid card.listId P (some t) hids hna ?_
        intro card2 hf2 hlp
        rw [hf] at hf2
        injection hf2 with he
        subst he
        exact hna card (List.mem_of_find?_eq_some hf) hlp
      · by_cases hcl : card.listId = P
        · rw [hcl] at htn ⊢
          exact dense_moveWithin_inP s cid P t card hids hf hcl hna hd ht0 htn
        · have hpos := positionsOf_moveToList_other s cid card.listId P (some t) hids
            (by
              intro card2 hf2
              rw [hf] at hf2
              injection hf2 with he
              subst he
              exact hcl) hcl
          unfold Dense
          rw [hpos]
          exact hd
  | moveAcross cid l topt =>
    simp only [applyOp]
    cases hf : s.find? (fun c => c.id == cid) with
    | none =>
      rw [moveToList_none s cid l topt hf]
      exact ⟨hids, hna, hd⟩
    | some card =>
      obtain ⟨hne, hrange, hPa⟩ := hv card hf
      refine ⟨nodupIds_moveToList _ _ _ _ hids, ?_, ?_⟩
      · refine pnoarch_moveToList s cid l P topt hids hna ?_
        intro card2 hf2 hlp
        rw [hf] at hf2
        injection hf2 with he
        subst he
        exact hPa hlp
      · have ht0 : 0 ≤ topt.getD ((countDocuments s l : Int)) := by
          cases topt with
          | none =>
            simp only [Option.getD_none]
            exact Int.natCast_nonneg _
          | some u =>
            simpa using (hrange u rfl).1
        by_cases hlp : l = P
        · subst hlp
          have htn : topt.getD ((countDocuments s l : Int)) ≤
              ((positionsOf s l).length : Int) := by
            cases topt with
            | none =>
              simp only [Option.getD_none]
              rw [countDocuments_eq_length s l hna]
            | some u =>
              have h2 := (hrange u rfl).2
              rw [countDocuments_eq_length s l hna] at h2
              simpa using h2
          exact dense_moveIn s cid l topt card _ hids hf hne (hPa rfl) hna hd rfl ht0 htn
        · by_cases hcs : card.listId = P
          · have hres := dense_moveOut s cid l topt card _ hids hf hne
              (hna card (List.mem_of_find?_eq_some hf) hcs) (by rw [hcs]; exact hd) rfl ht0
            rw [hcs] at hres
            exact hres
          · have hpos := positionsOf_moveToList_other s cid l P topt hids
              (by
                intro card2 hf2
                rw [hf] at hf2
                injection hf2 with he
                subst he
                exact hcs) hlp
            unfold Dense
            rw [hpos]
            exact hd
  | delete cid =>
    exact ⟨nodupIds_deleteCard s cid hids, pnoarch_deleteCard s P cid hna,
      dense_deleteCard s cid P hids hna hd⟩

lemma applyOps_preserves (P : Nat) (ops : List Op) :
    ∀ s : Cards, NodupIds s → PNoArch s P → Dense s P → ValidSeq P s ops →
      NodupIds (applyOps s ops) ∧ PNoArch (applyOps s ops) P ∧
        Dense (applyOps s ops) P := by
  induction ops with
  | nil =>
    intro s h1 h2 h3 _
    exact ⟨h1, h2, h3⟩
  | cons op ops ih =>
    intro s h1 h2 h3 hv
    obtain ⟨g1, g2, g3⟩ := applyOp_preserves P s op h1 h2 h3 hv.1
    exact ih (applyOp s op) g1 g2 g3 hv.2

lemma validSeq_of_append (P : Nat) (pre suf : List Op) :
    ∀ s : Cards, ValidSeq P s (pre ++ suf) → ValidSeq P s pre := by
  induction pre with
  | nil => intro s _; trivial
  | cons op ops ih => intro s h; exact ⟨h.1, ih _ h.2⟩

/-- C1 fails on the code: list 3 has an empty non-archived sibling set but
holds one archived card frozen at position 0; a single insert then receives
position 1, so the non-archived positions are { 1 }, not { 0 }. -/
theorem c1_counterexample :
    positionsOf [⟨30, 3, 1, 0, true⟩] 3 = [] ∧
    positionsOf (applyOps [⟨30, 3, 1, 0, true⟩] [Op.insert 31 3 1]) 3 = [1] ∧
    ¬ Dense (applyOps [⟨30, 3, 1, 0, true⟩] [Op.insert 31 3 1]) 3 := by
  refine ⟨by decide, by decide, ?_⟩
  unfold Dense
  decide

/-- C1 amended: starting from a parent with no items at all, every sequence of
valid operations — insert with a fresh id, move-within with an in-range
target, move-across with a target between 0 and the destination count or
null and never moving an archived card into the parent, delete — leaves the
non-archived positions of the parent a permutation of 0..n-1 after each
operation. -/
theorem c1_dense_invariant (P : Nat) (ops : List Op) (s0 : Cards)
    (hids : NodupIds s0) (hempty : ∀ c ∈ s0, c.listId ≠ P)
    (hvalid : ValidSeq P s0 ops) :
    ∀ pre suf : List Op, ops = pre ++ suf → Dense (applyOps s0 pre) P := by
  intro pre suf he
  subst he
  have h2 : PNoArch s0 P := fun c hc hl => absurd hl (hempty c hc)
  have h3 : Dense s0 P := by
    unfold Dense
    have h0 : positionsOf s0 P = [] := by
      rw [positionsOf]
      rw [List.filter_eq_nil_iff.2 ?_]
      · rfl
      · intro c hc
        simp [hempty c hc]
    rw [h0]
    simp
  exact (applyOps_preserves P pre s0 hids h2 h3
    (validSeq_of_append P pre suf s0 hvalid)).2.2

theorem c1_witness :
    Dense (applyOps ([] : Cards) [Op.insert 10 1 1, Op.insert 11 1 1,
      Op.moveWithin 10 1]) 1 := by
  refine c1_dense_invariant 1
    [Op.insert 10 1 1, Op.insert 11 1 1, Op.moveWithin 10 1, Op.moveAcross 10 2 (some 0),
      Op.delete 11] [] (by decide) (by simp) ?_
    [Op.insert 10 1 1, Op.insert 11 1 1, Op.moveWithin 10 1]
    [Op.moveAcross 10 2 (some 0), Op.delete 11] rfl
  refine ⟨?_, ?_, ?_, ?_, ?_, trivial⟩
  · intro c hc
    simp at hc
  · intro c hc
    have : c = (⟨10, 1, 1, 0, false⟩ : Card) := by
      simpa [applyOp, createCard, countDocuments] using hc
    rw [this]
    decide
  · intro card hf
    have h2 : some (⟨10, 1, 1, 0, false⟩ : Card) = some card := hf
    injection h2 with h3
    subst h3
    decide
  · intro card hf
    have h2 : some (⟨10, 1, 1, 1, false⟩ : Card) = some card := hf
    injection h2 with h3
    subst h3
    refine ⟨by decide, ?_, by decide⟩
    intro u hu
    injection hu with h4
    subst h4
    decide
  · trivial

lemma siblingCount_map (s : Cards) (F : Card → Card) (Q : Nat) :
    siblingCount (s.map F) Q =
      (s.filter (fun c => ((F c).listId == Q) && !(F c).archived)).length := by
  simp only [siblingCount]
  rw [List.filter_map, List.length_map]
  rfl

lemma length_filter_add_congr (s : Cards) (a b a2 b2 : Card → Bool)
    (h : ∀ c ∈ s, ((if a c then 1 else 0) + (if b c then 1 else 0) : Nat) =
      (if a2 c then 1 else 0) + (if b2 c then 1 else 0)) :
    (s.filter a).length + (s.filter b).length =
      (s.filter a2).length + (s.filter b2).length := by
  induction s with
  | nil => rfl
  | cons c cs ih =>
    have hc := h c (by simp)
    have ih2 := ih fun x hx => h x (by simp [hx])
    simp only [List.filter_cons]
    cases ha : a c <;> cases hb : b c <;> cases ha2 : a2 c <;> cases hb2 : b2 c <;>
      simp only [ha, hb, ha2, hb2] at hc ⊢ <;>
      simp only [Bool.false_eq_true, if_true, if_false, List.length_cons] at hc ⊢ <;>
      omega

/-- C3 fails on the code in two ways. First, the null target of a cross-list
move is resolved against the total card count of the destination, archived
cards included, not the non-archived sibling count: with one archived card
frozen at position 0 in list 4 and no non-archived card there, the appended
card lands at position 1, not at the sibling count 0. Second, the source
compaction does not restore a dense numbering when the moved card is itself
archived (the endpoint never checks the flag): moving the archived card
frozen at position 0 out of list 1 decrements the non-archived card at
position 1 onto the still-present non-archived card at position 0, leaving
the duplicated positions 0, 0. -/
theorem c3_counterexample :
    (siblingCount [⟨10, 1, 1, 0, false⟩, ⟨40, 4, 1, 0, true⟩] 4 = 0 ∧
    (moveToList [⟨10, 1, 1, 0, false⟩, ⟨40, 4, 1, 0, true⟩] 10 4 none).cards =
      [⟨10, 4, 1, 1, false⟩, ⟨40, 4, 1, 0, true⟩]) ∧
    (Dense [⟨1, 1, 1, 0, false⟩, ⟨2, 1, 1, 1, false⟩, ⟨99, 1, 1, 0, true⟩] 1 ∧
    (moveToList [⟨1, 1, 1, 0, false⟩, ⟨2, 1, 1, 1, false⟩, ⟨99, 1, 1, 0, true⟩]
        99 2 (some 0)).ok = true ∧
    ¬ Dense (moveToList [⟨1, 1, 1, 0, false⟩, ⟨2, 1, 1, 1, false⟩,
        ⟨99, 1, 1, 0, true⟩] 99 2 (some 0)).cards 1) :=
  ⟨⟨by decide, by decide⟩,
   ⟨by unfold Dense; decide, by decide, by unfold Dense; decide⟩⟩

/-- C3 amended: for a cross-list move of a non-archived card with the null
target resolved to the total card count of the destination (archived
included), the save succeeds, the source cards after the moved one are
decremented, the destination cards at or past the resolved target are
incremented, the moved card is written to the destination at the resolved
target, the sum of the non-archived sibling counts of the two lists is
conserved, and the source list is left dense; the non-archived hypothesis is
needed only for density, which fails for archived moves (see the
counterexample), while the shifts, final write and conservation hold for
archived moves as well. -/
theorem c3_cross_parent_move (s : Cards) (cid l : Nat) (topt : Option Int) (card : Card)
    (tstar : Int)
    (hids : NodupIds s)
    (hfind : s.find? (fun c => c.id == cid) = some card)
    (hne : card.listId ≠ l)
    (htstar : tstar = topt.getD ((countDocuments s l : Int)))
    (ht0 : 0 ≤ tstar)
    (harch : card.archived = false) (hd : Dense s card.listId) :
    (moveToList s cid l topt).ok = true ∧
    (moveToList s cid l topt).cards = s.map (fun c =>
      if c.id = cid then { c with listId := l, position := tstar }
      else if c.listId = card.listId ∧ card.position < c.position then
        { c with position := c.position - 1 }
      else if c.listId = l ∧ tstar ≤ c.position then
        { c with position := c.position + 1 }
      else c) ∧
    siblingCount (moveToList s cid l topt).cards card.listId +
      siblingCount (moveToList s cid l topt).cards l =
      siblingCount s card.listId + siblingCount s l ∧
    Dense (moveToList s cid l topt).cards card.listId := by
  obtain ⟨hok, hcards⟩ := moveToList_cross_map s cid l topt card tstar hfind hne htstar ht0
  refine ⟨hok, hcards, ?_,
    dense_moveOut s cid l topt card tstar hids hfind hne harch hd htstar ht0⟩
  rw [hcards]
  rw [siblingCount_map, siblingCount_map]
  have hold : siblingCount s card.listId =
      (s.filter (fun c => c.listId == card.listId && !c.archived)).length := rfl
  have hnew : siblingCount s l =
      (s.filter (fun c => c.listId == l && !c.archived)).length := rfl
  rw [hold, hnew]
  refine length_filter_add_congr s _ _ _ _ ?_
  intro c hc
  by_cases h1 : c.id = cid
  · have hceq : c = card := eq_of_mem_of_id s cid card c hids hfind hc h1
    have hcF : (if c.id = cid then { c with listId := l, position := tstar }
        else if c.listId = card.listId ∧ card.position < c.position then
          { c with position := c.position - 1 }
        else if c.listId = l ∧ tstar ≤ c.position then
          { c with position := c.position + 1 }
        else c) = { c with listId := l, position := tstar } := by
      rw [if_pos h1]
    rw [hcF]
    have hl1 : (l == card.listId) = false := by
      simp only [beq_eq_false_iff_ne, ne_eq]
      exact fun h => hne h.symm
    have hl2 : (c.listId == card.listId) = true := by
      rw [hceq]
      simp
    have hl3 : (c.listId == l) = false := by
      rw [hceq]
      simp [hne]
    simp only [hl1, hl2, hl3]
    cases harc : c.archived <;> simp
  · have hcF : (if c.id = cid then { c with listId := l, position := tstar }
        else if c.listId = card.listId ∧ card.position < c.position then
          { c with position := c.position - 1 }
        else if c.listId = l ∧ tstar ≤ c.position then
          { c with position := c.position + 1 }
        else c).listId = c.listId ∧
        (if c.id = cid then { c with listId := l, position := tstar }
        else if c.listId = card.listId ∧ card.position < c.position then
          { c with position := c.position - 1 }
        else if c.listId = l ∧ tstar ≤ c.position then
          { c with position := c.position + 1 }
        else c).archived = c.archived := by
      rw [if_neg h1]
      by_cases h2 : c.listId = card.listId ∧ card.position < c.position
      · rw [if_pos h2]
        exact ⟨rfl, rfl⟩
      · rw [if_neg h2]
        by_cases h3 : c.listId = l ∧ tstar ≤ c.position
        · rw [if_pos h3]
          exact ⟨rfl, rfl⟩
        · rw [if_neg h3]
          exact ⟨rfl, rfl⟩
    rw [hcF.1, hcF.2]

theorem c3_witness :
    (moveToList [⟨10, 1, 1, 0, false⟩, ⟨11, 1, 1, 1, false⟩, ⟨20, 2, 1, 0, false⟩]
        10 2 (some 0)).ok = true ∧
    (moveToList [⟨10, 1, 1, 0, false⟩, ⟨11, 1, 1, 1, false⟩, ⟨20, 2, 1, 0, false⟩]
        10 2 (some 0)).cards =
      [⟨10, 2, 1, 0, false⟩, ⟨11, 1, 1, 0, false⟩, ⟨20, 2, 1, 1, false⟩] ∧
    siblingCount (moveToList [⟨10, 1, 1, 0, false⟩, ⟨11, 1, 1, 1, false⟩,
        ⟨20, 2, 1, 0, false⟩] 10 2 (some 0)).cards 1 +
      siblingCount (moveToList [⟨10, 1, 1, 0, false⟩, ⟨11, 1, 1, 1, false⟩,
        ⟨20, 2, 1, 0, false⟩] 10 2 (some 0)).cards 2 =
      siblingCount [⟨10, 1, 1, 0, false⟩, ⟨11, 1, 1, 1, false⟩, ⟨20, 2, 1, 0, false⟩] 1 +
        siblingCount [⟨10, 1, 1, 0, false⟩, ⟨11, 1, 1, 1, false⟩, ⟨20, 2, 1, 0, false⟩] 2 ∧
    Dense (moveToList [⟨10, 1, 1, 0, false⟩, ⟨11, 1, 1, 1, false⟩, ⟨20, 2, 1, 0, false⟩]
        10 2 (some 0)).cards 1 := by
  have h := c3_cross_parent_move
    [⟨10, 1, 1, 0, false⟩, ⟨11, 1, 1, 1, false⟩, ⟨20, 2, 1, 0, false⟩]
    10 2 (some 0) ⟨10, 1, 1, 0, false⟩ 0
    (by decide) (by decide) (by decide) rfl (by decide) (by decide)
    (by unfold Dense; decide)
  exact ⟨h.1, by rw [h.2.1]; decide, h.2.2.1, h.2.2.2⟩

end Kanban
